import Mathlib

/-!
Verification of the synchronization and storage engine of a Reddit PWA
(file `app.js`).  Every definition below is a shallow embedding of the
corresponding JavaScript function, keeping the source names.  Machine
integers are modelled as `Int`/`Nat`; wall-clock timestamps are explicit
parameters (`now`); fractional arithmetic (storage percentages, seconds
with a fractional part) is modelled with `ℚ`.
-/

namespace Enpwa

/-! ## Configuration constants (the `CONFIG` object of `app.js`) -/

namespace CONFIG

def REQUESTS_PER_MINUTE : Nat := 50

/-- 1.2 seconds between requests, in milliseconds. -/
def REQUEST_INTERVAL : Int := 1200

def MAX_RETRIES : Nat := 3

def RATE_LIMIT_RESET_INTERVAL : Int := 60 * 1000

/-- Only cleanup when storage is 90%+ full (a percentage). -/
def CLEANUP_THRESHOLD : ℚ := 90

/-- Posts older than this will be deleted (days). -/
def MAX_POST_AGE_DAYS : Int := 30

end CONFIG

/-! ## Data model -/

/-- A normalized feed item as produced by `stripPostData` and stored in the
feeds (the fields that the synchronization engine reads). -/
structure Post where
  id : String
  title : String
  author : String
  subreddit : String
  created_utc : Int
  ups : Int
  deriving DecidableEq, Repr

/-- `feed.pending` — the staging area of a feed. -/
structure Pending where
  posts : List Post
  count : Nat
  deriving DecidableEq, Repr

/-- One feed (`state.feeds.my` / `state.feeds.popular`): an applied post
list, a staging area and a per-source last-fetch map (an assoc list,
modelling the JS object). -/
structure Feed where
  posts : List Post
  pending : Pending
  lastFetch : List (String × Int)
  deriving DecidableEq, Repr

/-- `state.rateLimitState`. -/
structure RateLimitState where
  lastRequestTime : Int
  remainingRequests : Nat
  resetTime : Int
  requestCount : Nat
  deriving DecidableEq, Repr

/-- Job status strings used by the sync queue
(`pending`/`processing`/`completed`/`failed`/`failed_max_retries`). -/
inductive JobStatus where
  | pending
  | processing
  | completed
  | failed
  | failed_max_retries
  deriving DecidableEq, Repr

/-- A sync-queue job (`queueSyncJob` literal). -/
structure Job where
  id : String
  type : String
  subreddit : Option String
  status : JobStatus
  retries : Nat
  timestamp : Int
  startTime : Option Int
  deriving DecidableEq, Repr

/-- The application state (`state` in `app.js`), restricted to the durable
fields that the synchronization and storage engine reads or writes. -/
structure AppState where
  my : Feed
  popular : Feed
  popularFiltered : List Post
  starred : List Post
  subreddits : List String
  blocked : List String
  blockedUsers : List String
  current : String
  rateLimitState : RateLimitState
  syncQueue : List Job
  isProcessingQueue : Bool
  storageQuota : Nat
  deriving DecidableEq, Repr

/-! ## Merger / deduplicator (`getNewPostsOnly`, `addPostsToPending`,
`removeDuplicates`, `applyPendingUpdates`) -/

/-- `.toLowerCase()`: lower-case a string character by character (the
character-wise definition of `String.toLower`, stated over the character
list so that the kernel can evaluate it). -/
def toLowerStr (s : String) : String :=
  String.mk (s.toList.map Char.toLower)

/-- The source filter used by `getNewPostsOnly`:
`!subreddit || p.subreddit.toLowerCase() === subreddit.toLowerCase()`. -/
def subMatch (subreddit : Option String) (p : Post) : Bool :=
  match subreddit with
  | none => true
  | some s => toLowerStr p.subreddit == toLowerStr s

/-- The id union built by `getNewPostsOnly` (lines 1003-1006): ids of the
applied posts and of the staged posts, both filtered to the source. -/
def existingIds (subreddit : Option String) (feed : Feed) : List String :=
  (feed.posts.filter (subMatch subreddit)).map (·.id) ++
    (feed.pending.posts.filter (subMatch subreddit)).map (·.id)

/-- `getNewPostsOnly(fetchedPosts, subreddit, feedType)` (lines 999-1017):
keeps only fetched posts whose id is not in the existing-id union. -/
def getNewPostsOnly (fetchedPosts : List Post) (subreddit : Option String)
    (feed : Feed) : List Post :=
  fetchedPosts.filter (fun p => !((existingIds subreddit feed).contains p.id))

/-- Assignment `feed.lastFetch[key] = v` on the assoc-list model of a JS
object field. -/
def setAssoc (m : List (String × Int)) (k : String) (v : Int) :
    List (String × Int) :=
  if m.any (fun e => e.1 == k) then
    m.map (fun e => if e.1 == k then (k, v) else e)
  else m ++ [(k, v)]

/-- `Math.max(...posts.map(p => p.created_utc))`; only evaluated on
non-empty lists in the source. -/
def maxCreated : List Post → Int
  | [] => 0
  | p :: rest => rest.foldl (fun acc q => max acc q.created_utc) p.created_utc

/-- `addPostsToPending(posts, feedType, subreddit)` (lines 761-791): appends
the genuinely new posts to the staging area and records the newest
`created_utc` in `lastFetch`.  The promise-chain lock of the source
serializes calls; the embedding is the sequential body. -/
def addPostsToPending (posts : List Post) (feedType : String)
    (subreddit : Option String) (feed : Feed) : Feed :=
  let newPosts := getNewPostsOnly posts subreddit feed
  if 0 < newPosts.length then
    let pendingPosts := feed.pending.posts ++ newPosts
    { feed with
      pending := ⟨pendingPosts, pendingPosts.length⟩
      lastFetch :=
        match subreddit with
        | some s => setAssoc feed.lastFetch s (maxCreated newPosts)
        | none =>
            if feedType == "popular" then
              setAssoc feed.lastFetch "_popular" (maxCreated newPosts)
            else feed.lastFetch }
  else feed

/-- Helper for `removeDuplicates`: the `seen` set of already-kept ids. -/
def removeDuplicatesAux (seen : List String) : List Post → List Post
  | [] => []
  | p :: rest =>
      if p.id ∈ seen then removeDuplicatesAux seen rest
      else p :: removeDuplicatesAux (p.id :: seen) rest

/-- `removeDuplicates(posts)` (lines 986-993): keeps the first occurrence of
every id. -/
def removeDuplicates (posts : List Post) : List Post :=
  removeDuplicatesAux [] posts

/-- The comparator `(a, b) => b.created_utc - a.created_utc` of the JS
stable sort: `a` may stay before `b` iff `b.created_utc ≤ a.created_utc`. -/
def createdDescLe (a b : Post) : Bool :=
  b.created_utc ≤ a.created_utc

/-- `.sort((a, b) => b.created_utc - a.created_utc)` — JS `Array.sort` is
stable, so it is a stable merge sort under `createdDescLe`. -/
def sortByCreatedDesc (posts : List Post) : List Post :=
  posts.mergeSort createdDescLe

/-- `rebuildPopularFiltered()` (lines 115-119). -/
def rebuildPopularFiltered (blocked : List String) (posts : List Post) :
    List Post :=
  posts.filter (fun p =>
    !(blocked.any (fun b => toLowerStr b == toLowerStr p.subreddit)))

/-- The merge of one feed inside `applyPendingUpdates`: concatenate staged
posts before applied posts, drop duplicate ids, sort by `created_utc`
descending, clear staging. -/
def mergeFeed (feed : Feed) : Feed :=
  { feed with
    posts := sortByCreatedDesc (removeDuplicates (feed.pending.posts ++ feed.posts))
    pending := ⟨[], 0⟩ }

/-! ## Storage manager (`cleanupOldPosts`, `cleanupOldPostsByAge`) -/

/-- `CONFIG.MAX_POST_AGE_DAYS * 24 * 60 * 60` — the age bound in seconds. -/
def maxPostAgeSeconds : Int := CONFIG.MAX_POST_AGE_DAYS * 24 * 60 * 60

/-- The ids of the starred (pinned) posts, the `bookmarkedIds` set. -/
def bookmarkedIds (st : AppState) : List String :=
  st.starred.map (·.id)

/-- `cleanupOldPostsByAge()` (lines 1105-1144).  `now` is `Date.now()/1000`,
a possibly fractional number of seconds, so it is a `ℚ`.  A post is kept
unless it is over-age and not bookmarked. -/
def cleanupOldPostsByAge (now : ℚ) (st : AppState) : AppState :=
  let keep : Post → Bool := fun post =>
    !(decide (maxPostAgeSeconds < now - (post.created_utc : ℚ)) &&
      !((bookmarkedIds st).contains post.id))
  { st with
    my := { st.my with posts := st.my.posts.filter keep }
    popular := { st.popular with posts := st.popular.posts.filter keep } }

/-- The scan of `cleanupOldPosts` (lines 1090-1096): walk the feed from the
tail (the argument list is the reversed feed), collecting ids of
non-bookmarked posts into the `removedIds` set until it holds
`removeCount` ids. -/
def collectRemoveIds (bookmarked : List String) (removeCount : Nat) :
    List Post → List String → List String
  | [], acc => acc
  | post :: rest, acc =>
      if removeCount ≤ acc.length then acc
      else if bookmarked.contains post.id then
        collectRemoveIds bookmarked removeCount rest acc
      else if acc.contains post.id then
        collectRemoveIds bookmarked removeCount rest acc
      else
        collectRemoveIds bookmarked removeCount rest (post.id :: acc)

/-- `getStorageUsagePercent()` with the measured byte size as a parameter:
`size / state.storageQuota * 100`. -/
def getStorageUsagePercent (storageSize : ℚ) (st : AppState) : ℚ :=
  storageSize / (st.storageQuota : ℚ) * 100

/-- `Math.ceil(state.feeds.my.posts.length * 0.2)`. -/
def cleanupRemoveCount (st : AppState) : Nat :=
  (⌈(st.my.posts.length : ℚ) * (2 / 10)⌉).toNat

/-- `cleanupOldPosts()` (lines 1080-1103), with the measured occupied byte
size as a parameter: below the threshold it is a no-op; otherwise it
removes the collected oldest non-bookmarked ids from the `my` feed and
mirrors the removal on the `popular` feed. -/
def cleanupOldPosts (storageSize : ℚ) (st : AppState) : AppState :=
  if getStorageUsagePercent storageSize st < CONFIG.CLEANUP_THRESHOLD then st
  else
    let removedIds :=
      collectRemoveIds (bookmarkedIds st) (cleanupRemoveCount st)
        st.my.posts.reverse []
    { st with
      my := { st.my with
        posts := st.my.posts.filter (fun p => !(removedIds.contains p.id)) }
      popular := { st.popular with
        posts := st.popular.posts.filter (fun p => !(removedIds.contains p.id)) } }

/-- The feed-merging stage of `applyPendingUpdates()` (lines 948-963):
merge the staged posts of both feeds (when non-empty) and rebuild the
popular filtered cache. -/
def applyFeedMerges (st : AppState) : AppState :=
  let st1 :=
    if 0 < st.my.pending.posts.length then { st with my := mergeFeed st.my }
    else st
  if 0 < st1.popular.pending.posts.length then
    let popular := mergeFeed st1.popular
    { st1 with
      popular := popular
      popularFiltered := rebuildPopularFiltered st1.blocked popular.posts }
  else st1

/-- `applyPendingUpdates()` (lines 947-984): the feed merges followed by
`cleanupOldPostsByAge()` (line 966). -/
def applyPendingUpdates (now : ℚ) (st : AppState) : AppState :=
  cleanupOldPostsByAge now (applyFeedMerges st)

/-! ## Job queue / scheduler (`queueSyncJob`, `processSyncQueue`) -/

/-- The terminal statuses, treated as non-blocking by the duplicate check:
`job.status !== 'completed' && job.status !== 'failed_max_retries'`. -/
def isTerminalStatus (s : JobStatus) : Bool :=
  s == .completed || s == .failed_max_retries

/-- The duplicate check of `queueSyncJob` for one existing job. -/
def isEquivActive (type : String) (subreddit : Option String) (j : Job) : Bool :=
  j.type == type && j.subreddit == subreddit && !(isTerminalStatus j.status)

/-- The job literal built by `queueSyncJob` (lines 607-615). -/
def newJob (type : String) (subreddit : Option String) (newId : String)
    (now : Int) : Job :=
  { id := newId, type := type, subreddit := subreddit,
    status := .pending, retries := 0, timestamp := now, startTime := none }

/-- `queueSyncJob(type, subreddit)` (lines 593-622), acting on the sync
queue, with the generated id and `Date.now()` as parameters: returns
`none` and leaves the queue alone when an equivalent non-terminal job
exists, otherwise appends a fresh `pending` job with `retries = 0`. -/
def queueSyncJob (type : String) (subreddit : Option String) (newId : String)
    (now : Int) (queue : List Job) : Option Job × List Job :=
  if queue.any (isEquivActive type subreddit) then (none, queue)
  else
    (some (newJob type subreddit newId now),
      queue ++ [newJob type subreddit newId now])

/-- An enqueue request: kind, source key, generated id, `Date.now()`. -/
def enqueueAll (reqs : List (String × Option String × String × Int))
    (queue : List Job) : List Job :=
  reqs.foldl (fun q r => (queueSyncJob r.1 r.2.1 r.2.2.1 r.2.2.2 q).2) queue

/-- The scheduling condition of the `processSyncQueue` loop:
`j.status === 'pending' || j.status === 'failed'`. -/
def isSchedulable (j : Job) : Bool :=
  j.status == .pending || j.status == .failed

/-- One iteration of the `processSyncQueue` loop on the picked job
(lines 652-681): over-retried jobs become `failed_max_retries`; otherwise
the job is marked `processing`, `retries` is incremented, `startTime` set,
the job executes (`exec` abstracts `executeJob`, returning success), and
the status becomes `completed` or `failed`. -/
def stepJob (exec : Job → Bool) (now : Int) (j : Job) : Job :=
  if CONFIG.MAX_RETRIES ≤ j.retries then { j with status := .failed_max_retries }
  else
    let j1 : Job :=
      { j with
        status := .processing
        startTime := some now
        retries := j.retries + 1 }
    if exec j1 then { j1 with status := .completed }
    else { j1 with status := .failed }

/-- Replace the first list element satisfying `p` by its image under `f`
(the source mutates the job object found by `Array.find`). -/
def updateFirst (p : Job → Bool) (f : Job → Job) : List Job → List Job
  | [] => []
  | j :: rest => if p j then f j :: rest else j :: updateFirst p f rest

/-- The `while` loop of `processSyncQueue` (lines 646-682), fuelled.  Each
iteration picks the first `pending`/`failed` job and steps it. -/
def processJobsLoop (exec : Job → Bool) (now : Int) :
    Nat → List Job → List Job
  | 0, queue => queue
  | fuel + 1, queue =>
      if queue.any isSchedulable then
        processJobsLoop exec now fuel
          (updateFirst isSchedulable (stepJob exec now) queue)
      else queue

/-- Enough fuel for the loop: each iteration either retires a job or
increments a retry counter below `MAX_RETRIES + 1`. -/
def processQueueFuel (queue : List Job) : Nat :=
  (CONFIG.MAX_RETRIES + 2) * queue.length + 1

/-- `processSyncQueue()` restricted to the job queue (lines 624-689): run
the loop, then prune `completed` and `failed_max_retries` jobs
(lines 684-687). -/
def processSyncQueue (exec : Job → Bool) (now : Int) (queue : List Job) :
    List Job :=
  (processJobsLoop exec now (processQueueFuel queue) queue).filter
    (fun j => !(j.status == .completed) && !(j.status == .failed_max_retries))

/-- The queue invariant of C3: no two jobs that are both non-terminal share
the same `(kind, sourceKey)` pair. -/
def noDuplicateActive (queue : List Job) : Prop :=
  queue.Pairwise (fun a b =>
    isTerminalStatus a.status = false → isTerminalStatus b.status = false →
      ¬(a.type = b.type ∧ a.subreddit = b.subreddit))

/-! ## Rate limiter (`waitForRateLimit` and the request reservation)

Time is explicit: an acquire is invoked at a wall-clock instant `now` and
timed waits advance that instant.  With a single back-to-back caller (the
cooperative scheduler) no other code mutates the state during a wait, so
one loop iteration is a pure function of `(state, now)`. -/

/-- One iteration of the `while (true)` loop of `waitForRateLimit`
(lines 558-588).  `Sum.inl (st, t)` means the function returns at instant
`t` with state `st`; `Sum.inr (st, t)` means it slept until the window
reset (plus the 100 ms margin) and re-enters the loop at instant `t`. -/
def rateLimitIteration (st : RateLimitState) (now : Int) :
    (RateLimitState × Int) ⊕ (RateLimitState × Int) :=
  let st :=
    if st.resetTime ≤ now then
      { st with
        remainingRequests := CONFIG.REQUESTS_PER_MINUTE
        resetTime := now + CONFIG.RATE_LIMIT_RESET_INTERVAL
        requestCount := 0 }
    else st
  if 0 < st.remainingRequests then
    let timeSinceLastRequest := now - st.lastRequestTime
    if CONFIG.REQUEST_INTERVAL ≤ timeSinceLastRequest then .inl (st, now)
    else .inl (st, now + (CONFIG.REQUEST_INTERVAL - timeSinceLastRequest))
  else
    .inr (st, now + max 0 (st.resetTime - now) + 100)

/-- The fuelled `waitForRateLimit` loop; `none` means the fuel ran out
(shown never to happen with fuel 2). -/
def waitForRateLimitLoop : Nat → RateLimitState → Int →
    Option (RateLimitState × Int)
  | 0, _, _ => none
  | fuel + 1, st, now =>
      match rateLimitIteration st now with
      | .inl r => some r
      | .inr (st1, now1) => waitForRateLimitLoop fuel st1 now1

/-- `waitForRateLimit()`: after one sleep-until-reset the window has surely
been reset, so two iterations always suffice. -/
def waitForRateLimit (st : RateLimitState) (now : Int) :
    Option (RateLimitState × Int) :=
  waitForRateLimitLoop 2 st now

/-- The request reservation performed right after the response arrives
(lines 813-816 of `fetchFeedWithRetry`): set `lastRequestTime`, decrement
`remainingRequests` (clamped at 0), bump `requestCount`. -/
def reserveRequest (st : RateLimitState) (t : Int) : RateLimitState :=
  { st with
    lastRequestTime := t
    remainingRequests := st.remainingRequests - 1
    requestCount := st.requestCount + 1 }

/-- A back-to-back sequence of acquire-and-reserve operations with no
header correction: each entry of `durs` is the duration of one fetch
(gate passes at `p`, the response lands and reserves at `p + dur`); the
next acquire is issued at the previous reservation instant.  Returns the
log of `(reservation instant, state after the reservation)`. -/
def rateLimiterRun (st : RateLimitState) (now : Int) :
    List Nat → Option (List (Int × RateLimitState) × RateLimitState)
  | [] => some ([], st)
  | dur :: durs =>
      match waitForRateLimit st now with
      | none => none
      | some (st1, p) =>
          let t := p + (dur : Int)
          let st2 := reserveRequest st1 t
          match rateLimiterRun st2 t durs with
          | none => none
          | some (log, final) => some ((t, st2) :: log, final)

/-! ## Fetch normalization (`stripPostData`, lines 498-556)

Raw response entries are JSON objects in which any field may be missing, so
every raw field is an `Option`. -/

namespace CONFIG

def IMAGE_MIN_WIDTH : Int := 640

def IMAGE_MAX_WIDTH : Int := 960

end CONFIG

/-- An entry of `media.p` (preview resolutions of `media_metadata`). -/
structure RawMediaRes where
  x : Int
  u : Option String
  deriving DecidableEq, Repr

/-- A `media_metadata` record: preview resolutions `p` and source `s`. -/
structure RawMediaMeta where
  p : Option (List RawMediaRes)
  s : Option RawMediaRes
  deriving DecidableEq, Repr

/-- An entry of `gallery_data.items`. -/
structure RawGalleryItem where
  media_id : String
  deriving DecidableEq, Repr

/-- An entry of `preview.images[0].resolutions`, or `preview.images[0].source`. -/
structure RawPreviewRes where
  width : Int
  url : Option String
  deriving DecidableEq, Repr

/-- `preview.images[0]`. -/
structure RawPreviewImage where
  resolutions : Option (List RawPreviewRes)
  source : Option RawPreviewRes
  deriving DecidableEq, Repr

/-- `media.reddit_video`. -/
structure RawVideo where
  fallback_url : Option String
  dash_url : Option String
  deriving DecidableEq, Repr

/-- A raw response entry (`child.data`): every field optional.
`gallery_data` stands for `gallery_data.items` and `media_reddit_video`
for `media?.reddit_video`. -/
structure RawPost where
  id : Option String
  title : Option String
  author : Option String
  subreddit : Option String
  permalink : Option String
  created_utc : Option Int
  ups : Option Int
  num_comments : Option Int
  selftext : Option String
  url : Option String
  is_video : Option Bool
  gallery_data : Option (List RawGalleryItem)
  media_metadata : Option (List (String × RawMediaMeta))
  preview_images : Option (List RawPreviewImage)
  media_reddit_video : Option RawVideo
  deriving DecidableEq, Repr

/-- The normalized record built by `stripPostData`; `id` is whatever the raw
entry carried, possibly missing. -/
structure StrippedPost where
  id : Option String
  title : Option String
  author : Option String
  subreddit : Option String
  permalink : Option String
  created_utc : Option Int
  ups : Option Int
  num_comments : Option Int
  selftext : String
  url : String
  is_video : Bool
  gallery : Option (List String)
  video_url : Option String
  audio_url : Option String
  deriving DecidableEq, Repr

/-- `.replace(/&amp;/g, '&')` — global, left-to-right, non-rescanning. -/
def fixAmpChars : List Char → List Char
  | '&' :: 'a' :: 'm' :: 'p' :: ';' :: rest => '&' :: fixAmpChars rest
  | c :: rest => c :: fixAmpChars rest
  | [] => []

def fixAmp (s : String) : String :=
  String.mk (fixAmpChars s.toList)

/-- Length of a match of `DASH_\d+\.mp4` at the head of the list, if any. -/
def dashMatchLen : List Char → Option Nat
  | 'D' :: 'A' :: 'S' :: 'H' :: '_' :: rest =>
      let digits := rest.takeWhile Char.isDigit
      if 0 < digits.length then
        match rest.drop digits.length with
        | '.' :: 'm' :: 'p' :: '4' :: _ => some (5 + digits.length + 4)
        | _ => none
      else none
  | _ => none

/-- `.replace(/DASH_\d+\.mp4/, 'DASH_AUDIO.mp4')` — first match only. -/
def replaceDashChars : List Char → List Char
  | [] => []
  | c :: rest =>
      match dashMatchLen (c :: rest) with
      | some n => "DASH_AUDIO.mp4".toList ++ (c :: rest).drop n
      | none => c :: replaceDashChars rest

def replaceDashAudioUrl (s : String) : String :=
  String.mk (replaceDashChars s.toList)

/-- JS object property lookup `post.media_metadata[item.media_id]`. -/
def lookupMeta (mm : List (String × RawMediaMeta)) (k : String) :
    Option RawMediaMeta :=
  (mm.find? (fun e => e.1 == k)).map (·.2)

/-- The gallery-item callback of lines 515-531: pick a resolution of `p` in
the target band (else the last one), use its `u`; otherwise fall back to
the source image `s.u`; otherwise `null`. -/
def galleryItemUrl (mm : List (String × RawMediaMeta))
    (item : RawGalleryItem) : Option String :=
  let media := lookupMeta mm item.media_id
  let fromP : Option String :=
    match media with
    | some m =>
        match m.p with
        | some resolutions =>
            let mediumRes :=
              (resolutions.find? (fun r =>
                CONFIG.IMAGE_MIN_WIDTH ≤ r.x && r.x ≤ CONFIG.IMAGE_MAX_WIDTH)).or
                resolutions.getLast?
            match mediumRes with
            | some r => r.u.map fixAmp
            | none => none
        | none => none
    | none => none
  match fromP with
  | some u => some u
  | none =>
      match media with
      | some m =>
          match m.s with
          | some s => s.u.map fixAmp
          | none => none
      | none => none

/-- `stripPostData(post)` (lines 498-556). -/
def stripPostData (post : RawPost) : StrippedPost :=
  let base : StrippedPost :=
    { id := post.id
      title := post.title
      author := post.author
      subreddit := post.subreddit
      permalink := post.permalink
      created_utc := post.created_utc
      ups := post.ups
      num_comments := post.num_comments
      selftext := post.selftext.getD ""
      url := post.url.getD ""
      is_video := post.is_video.getD false
      gallery := none
      video_url := none
      audio_url := none }
  let withGallery : StrippedPost :=
    match post.gallery_data, post.media_metadata with
    | some items, some mm =>
        { base with gallery := some ((items.map (galleryItemUrl mm)).reduceOption) }
    | _, _ =>
        match post.preview_images.bind List.head? with
        | some preview =>
            let resolutions := preview.resolutions.getD []
            let mediumRes :=
              ((resolutions.find? (fun r =>
                  CONFIG.IMAGE_MIN_WIDTH ≤ r.width &&
                    r.width ≤ CONFIG.IMAGE_MAX_WIDTH)).or
                resolutions.getLast?).or preview.source
            match mediumRes with
            | some r =>
                match r.url with
                | some u => { base with gallery := some [fixAmp u] }
                | none => base
            | none => base
        | none => base
  match post.is_video.getD false, post.media_reddit_video with
  | true, some videoData =>
      { withGallery with
        video_url := videoData.fallback_url.or videoData.dash_url
        audio_url := videoData.fallback_url.map replaceDashAudioUrl }
  | _, _ => withGallery

/-- The normalization of a parsed payload in `fetchFeed` (line 483):
`data.data.children.map(child => stripPostData(child.data))`. -/
def normalizeChildren (children : List RawPost) : List StrippedPost :=
  children.map stripPostData

/-! ## Concrete sample data for witnesses -/

def samplePost : Post :=
  { id := "p1", title := "t1", author := "alice", subreddit := "dogs",
    created_utc := 1700000000, ups := 10 }

def samplePost2 : Post :=
  { id := "p2", title := "t2", author := "bob", subreddit := "dogs",
    created_utc := 1700000500, ups := 3 }

def samplePost3 : Post :=
  { id := "p3", title := "t3", author := "carol", subreddit := "cats",
    created_utc := 1699999000, ups := 7 }

def sampleRateLimitState : RateLimitState :=
  { lastRequestTime := 0, remainingRequests := 50, resetTime := 60000,
    requestCount := 0 }

def sampleState : AppState :=
  { my := ⟨[samplePost2, samplePost], ⟨[samplePost3], 1⟩, [("dogs", 1700000500)]⟩
    popular := ⟨[samplePost], ⟨[], 0⟩, []⟩
    popularFiltered := [samplePost]
    starred := [samplePost]
    subreddits := ["dogs"]
    blocked := []
    blockedUsers := []
    current := "my"
    rateLimitState := sampleRateLimitState
    syncQueue := []
    isProcessingQueue := false
    storageQuota := 5242880 }

def emptyFeed : Feed := ⟨[], ⟨[], 0⟩, []⟩

def rawNoId : RawPost :=
  { id := none
    title := some "hello"
    author := none
    subreddit := none
    permalink := none
    created_utc := none
    ups := none
    num_comments := none
    selftext := none
    url := none
    is_video := none
    gallery_data := none
    media_metadata := none
    preview_images := none
    media_reddit_video := none }


def oldPost : Post :=
  { id := "old1", title := "t", author := "a", subreddit := "dogs",
    created_utc := 0, ups := 0 }

def oldState : AppState :=
  { my := ⟨[], ⟨[oldPost], 1⟩, []⟩
    popular := ⟨[], ⟨[], 0⟩, []⟩
    popularFiltered := []
    starred := []
    subreddits := []
    blocked := []
    blockedUsers := []
    current := "my"
    rateLimitState := sampleRateLimitState
    syncQueue := []
    isProcessingQueue := false
    storageQuota := 5242880 }

/-! ## Helper lemmas -/

/-- Membership in the id union of `getNewPostsOnly`. -/
theorem mem_existingIds {x : String} {sr : Option String} {feed : Feed} :
    x ∈ existingIds sr feed ↔
      ∃ q, (q ∈ feed.posts ∨ q ∈ feed.pending.posts) ∧
        subMatch sr q = true ∧ q.id = x := by
  unfold existingIds
  simp only [List.mem_append, List.mem_map, List.mem_filter]
  constructor
  · intro h
    rcases h with ⟨q, ⟨hq, hm⟩, hid⟩ | ⟨q, ⟨hq, hm⟩, hid⟩
    · exact ⟨q, Or.inl hq, hm, hid⟩
    · exact ⟨q, Or.inr hq, hm, hid⟩
  · intro ⟨q, hq, hm, hid⟩
    rcases hq with hq | hq
    · exact Or.inl ⟨q, ⟨hq, hm⟩, hid⟩
    · exact Or.inr ⟨q, ⟨hq, hm⟩, hid⟩

/-- Membership in the filtered fetch result. -/
theorem mem_getNewPostsOnly {p : Post} {posts : List Post} {sr : Option String}
    {feed : Feed} :
    p ∈ getNewPostsOnly posts sr feed ↔
      p ∈ posts ∧ ¬ p.id ∈ existingIds sr feed := by
  unfold getNewPostsOnly
  simp [List.mem_filter]

/-- `addPostsToPending` leaves the applied list alone and appends exactly
the filtered fetch result to the staging list. -/
theorem addPostsToPending_posts_pending (posts : List Post) (ft : String)
    (sr : Option String) (feed : Feed) :
    (addPostsToPending posts ft sr feed).posts = feed.posts ∧
    (addPostsToPending posts ft sr feed).pending.posts =
      feed.pending.posts ++ getNewPostsOnly posts sr feed := by
  unfold addPostsToPending
  dsimp only
  split
  · exact ⟨rfl, rfl⟩
  · next hlen =>
      have hnil : getNewPostsOnly posts sr feed = [] :=
        List.eq_nil_of_length_eq_zero (by omega)
      rw [hnil]
      simp

/-- A stage call whose filtered fetch result is empty is a no-op. -/
theorem addPostsToPending_of_nil {posts : List Post} {sr : Option String}
    {feed : Feed} (ft : String)
    (h : getNewPostsOnly posts sr feed = []) :
    addPostsToPending posts ft sr feed = feed := by
  unfold addPostsToPending
  rw [h]
  simp


/-- `removeDuplicates` output elements come from the input. -/
theorem mem_removeDuplicatesAux {p : Post} :
    ∀ {l : List Post} {seen : List String},
      p ∈ removeDuplicatesAux seen l → p ∈ l := by
  intro l
  induction l with
  | nil => intro seen h; exact absurd h (List.not_mem_nil p)
  | cons q rest ih =>
      intro seen h
      rw [removeDuplicatesAux] at h
      by_cases hq : q.id ∈ seen
      · rw [if_pos hq] at h
        exact List.mem_cons_of_mem q (ih h)
      · rw [if_neg hq] at h
        rcases List.mem_cons.mp h with rfl | h
        · exact List.mem_cons_self _ _
        · exact List.mem_cons_of_mem q (ih h)

theorem removeDuplicatesAux_nodup :
    ∀ (l : List Post) (seen : List String),
      ((removeDuplicatesAux seen l).map (·.id)).Nodup ∧
      ∀ x ∈ (removeDuplicatesAux seen l).map (·.id), x ∉ seen := by
  intro l
  induction l with
  | nil => intro seen; exact ⟨List.nodup_nil, by simp [removeDuplicatesAux]⟩
  | cons q rest ih =>
      intro seen
      rw [removeDuplicatesAux]
      by_cases hq : q.id ∈ seen
      · rw [if_pos hq]
        exact ih seen
      · rw [if_neg hq]
        obtain ⟨hnd, hni⟩ := ih (q.id :: seen)
        constructor
        · rw [List.map_cons, List.nodup_cons]
          refine ⟨fun hmem => ?_, hnd⟩
          exact hni q.id hmem (List.mem_cons_self _ _)
        · intro x hx
          rw [List.map_cons, List.mem_cons] at hx
          rcases hx with rfl | hx
          · exact hq
          · intro hxs
            exact hni x hx (List.mem_cons_of_mem _ hxs)

theorem removeDuplicates_nodup (l : List Post) :
    ((removeDuplicates l).map (·.id)).Nodup :=
  (removeDuplicatesAux_nodup l []).1

theorem mem_removeDuplicates {p : Post} {l : List Post}
    (h : p ∈ removeDuplicates l) : p ∈ l :=
  mem_removeDuplicatesAux h

theorem createdDescLe_trans : ∀ a b c : Post, createdDescLe a b = true →
    createdDescLe b c = true → createdDescLe a c = true := by
  intro a b c hab hbc
  simp only [createdDescLe, decide_eq_true_eq] at *
  omega

theorem createdDescLe_total : ∀ a b : Post,
    (createdDescLe a b || createdDescLe b a) = true := by
  intro a b
  simp only [createdDescLe, Bool.or_eq_true, decide_eq_true_eq]
  omega

theorem sortByCreatedDesc_perm (l : List Post) :
    (sortByCreatedDesc l).Perm l :=
  List.mergeSort_perm l createdDescLe

theorem sortByCreatedDesc_sorted (l : List Post) :
    (sortByCreatedDesc l).Pairwise
      (fun a b => b.created_utc ≤ a.created_utc) := by
  have := List.sorted_mergeSort createdDescLe_trans createdDescLe_total l
  exact this.imp (fun h => by simpa [createdDescLe] using h)

theorem sortByCreatedDesc_filter_stable (l : List Post) (t : Int) :
    (sortByCreatedDesc l).filter (fun p => p.created_utc == t) =
      l.filter (fun p => p.created_utc == t) := by
  have hsub : (l.filter (fun p => p.created_utc == t)).Sublist
      (sortByCreatedDesc l) := by
    apply List.sublist_mergeSort createdDescLe_trans createdDescLe_total
    · apply List.pairwise_of_forall_mem_list
      intro a ha b hb
      have ha' := (List.mem_filter.mp ha).2
      have hb' := (List.mem_filter.mp hb).2
      simp only [beq_iff_eq] at ha' hb'
      simp [createdDescLe, ha', hb']
    · exact List.filter_sublist l
  have hsub2 : (l.filter (fun p => p.created_utc == t)).Sublist
      ((sortByCreatedDesc l).filter (fun p => p.created_utc == t)) := by
    have := hsub.filter (fun p => p.created_utc == t)
    rw [List.filter_filter] at this
    simpa using this
  have hlen : ((sortByCreatedDesc l).filter
      (fun p => p.created_utc == t)).length =
      (l.filter (fun p => p.created_utc == t)).length :=
    ((sortByCreatedDesc_perm l).filter _).length_eq
  exact (hsub2.eq_of_length hlen.symm).symm


theorem mergeFeed_spec (feed : Feed) :
    (mergeFeed feed).posts.Pairwise
      (fun a b => b.created_utc ≤ a.created_utc) ∧
    ((mergeFeed feed).posts.map (·.id)).Nodup ∧
    (mergeFeed feed).posts.Perm
      (removeDuplicates (feed.pending.posts ++ feed.posts)) ∧
    (∀ t : Int, (mergeFeed feed).posts.filter (fun p => p.created_utc == t) =
      (removeDuplicates (feed.pending.posts ++ feed.posts)).filter
        (fun p => p.created_utc == t)) ∧
    (mergeFeed feed).pending.posts = [] ∧
    (mergeFeed feed).pending.count = 0 := by
  refine ⟨sortByCreatedDesc_sorted _, ?_, sortByCreatedDesc_perm _,
    fun t => sortByCreatedDesc_filter_stable _ t, rfl, rfl⟩
  have hperm := (sortByCreatedDesc_perm
    (removeDuplicates (feed.pending.posts ++ feed.posts))).map (·.id)
  exact hperm.nodup_iff.mpr (removeDuplicates_nodup _)

theorem cleanupFilter_eq_self (now : ℚ) (bk : List String) (l : List Post)
    (h : ∀ p ∈ l, now - (p.created_utc : ℚ) ≤ (maxPostAgeSeconds : ℚ)) :
    l.filter (fun post =>
      !(decide (maxPostAgeSeconds < now - (post.created_utc : ℚ)) &&
        !(bk.contains post.id))) = l := by
  rw [List.filter_eq_self]
  intro p hp
  have := h p hp
  simp only [Bool.not_eq_true', Bool.and_eq_false_iff, decide_eq_false_iff_not,
    not_lt]
  exact Or.inl this

theorem applyFeedMerges_my (st : AppState) :
    (applyFeedMerges st).my =
      if 0 < st.my.pending.posts.length then mergeFeed st.my else st.my := by
  unfold applyFeedMerges
  dsimp only
  split
  · split <;> rfl
  · split <;> rfl

theorem applyFeedMerges_popular (st : AppState) :
    (applyFeedMerges st).popular =
      if 0 < st.popular.pending.posts.length then mergeFeed st.popular
      else st.popular := by
  unfold applyFeedMerges
  dsimp only
  split <;> split <;> rfl

theorem applyFeedMerges_starred (st : AppState) :
    (applyFeedMerges st).starred = st.starred := by
  unfold applyFeedMerges
  dsimp only
  split <;> split <;> rfl

/-- Normalization passes the raw `id` through unchanged, with no guard. -/
theorem stripPostData_id (post : RawPost) :
    (stripPostData post).id = post.id := by
  unfold stripPostData
  dsimp only
  repeat' split <;> try rfl

/-- Every id in the collected eviction set either came from the accumulator
or is not bookmarked. -/
theorem mem_collectRemoveIds {b : List String} {c : Nat} :
    ∀ {l : List Post} {acc : List String} {x : String},
      x ∈ collectRemoveIds b c l acc → x ∈ acc ∨ b.contains x = false := by
  intro l
  induction l with
  | nil => intro acc x hx; exact Or.inl hx
  | cons post rest ih =>
      intro acc x hx
      rw [collectRemoveIds] at hx
      by_cases hstop : c ≤ acc.length
      · rw [if_pos hstop] at hx; exact Or.inl hx
      · rw [if_neg hstop] at hx
        by_cases hb : b.contains post.id
        · rw [if_pos hb] at hx; exact ih hx
        · rw [if_neg hb] at hx
          by_cases ha : acc.contains post.id
          · rw [if_pos ha] at hx; exact ih hx
          · rw [if_neg ha] at hx
            rcases ih hx with hmem | hnb
            · rcases List.mem_cons.mp hmem with heq | hmem
              · subst heq; exact Or.inr (Bool.eq_false_iff.mpr hb)
              · exact Or.inl hmem
            · exact Or.inr hnb

/-- Full specification of one `queueSyncJob` call on a queue satisfying the
C3 invariant. -/
theorem queueSyncJob_spec (ty : String) (sr : Option String) (nid : String)
    (now : Int) (q : List Job) (h : noDuplicateActive q) :
    noDuplicateActive (queueSyncJob ty sr nid now q).2 ∧
    ((queueSyncJob ty sr nid now q).1 = none ↔
      ∃ j ∈ q, isTerminalStatus j.status = false ∧ j.type = ty ∧
        j.subreddit = sr) ∧
    ((queueSyncJob ty sr nid now q).1 = none →
      (queueSyncJob ty sr nid now q).2 = q) ∧
    (∀ jb, (queueSyncJob ty sr nid now q).1 = some jb →
      (queueSyncJob ty sr nid now q).2 = q ++ [jb] ∧
      jb.status = JobStatus.pending ∧ jb.retries = 0) := by
  have hactive_iff : ∀ j : Job, isEquivActive ty sr j = true ↔
      isTerminalStatus j.status = false ∧ j.type = ty ∧ j.subreddit = sr := by
    intro j
    simp only [isEquivActive, Bool.and_eq_true, beq_iff_eq, Bool.not_eq_true']
    tauto
  unfold queueSyncJob
  by_cases hdup : q.any (isEquivActive ty sr) = true
  · rw [if_pos hdup]
    rcases List.any_eq_true.mp hdup with ⟨j, hj, hact⟩
    refine ⟨h, ?_, fun _ => rfl, fun jb hjb => by cases hjb⟩
    simp only [true_iff]
    exact ⟨j, hj, (hactive_iff j).mp hact⟩
  · rw [if_neg hdup]
    have hnone : ∀ j ∈ q, ¬(isTerminalStatus j.status = false ∧ j.type = ty ∧
        j.subreddit = sr) := by
      intro j hj hc
      exact hdup (List.any_eq_true.mpr ⟨j, hj, (hactive_iff j).mpr hc⟩)
    refine ⟨?_, ?_, ?_, ?_⟩
    · rw [noDuplicateActive, List.pairwise_append]
      refine ⟨h, List.pairwise_singleton _ _, ?_⟩
      intro a ha b hb hant _hbnt hab
      have hb' : b = newJob ty sr nid now := by simpa using hb
      refine hnone a ha ⟨hant, ?_, ?_⟩
      · rw [hab.1, hb']; rfl
      · rw [hab.2, hb']; rfl
    · constructor
      · intro hc; cases hc
      · intro hex
        exfalso
        rcases hex with ⟨j, hj, hc⟩
        exact hnone j hj hc
    · intro hc; cases hc
    · intro jb hjb
      cases hjb
      exact ⟨rfl, rfl, rfl⟩

/-- The single-call invariant preservation, iterated over any request
sequence. -/
theorem enqueueAll_noDuplicateActive
    (reqs : List (String × Option String × String × Int)) :
    ∀ q : List Job, noDuplicateActive q → noDuplicateActive (enqueueAll reqs q) := by
  induction reqs with
  | nil => intro q h; exact h
  | cons r rest ih =>
      intro q h
      exact ih _ (queueSyncJob_spec r.1 r.2.1 r.2.2.1 r.2.2.2 q h).1


/-- The eviction scan only grows its accumulator. -/
theorem collectRemoveIds_sub (b : List String) (c : Nat) :
    ∀ (l : List Post) (acc : List String), acc ⊆ collectRemoveIds b c l acc := by
  intro l
  induction l with
  | nil => intro acc; exact fun x h => h
  | cons post rest ih =>
      intro acc
      rw [collectRemoveIds]
      by_cases hstop : c ≤ acc.length
      · rw [if_pos hstop]
        exact fun x h => h
      · rw [if_neg hstop]
        by_cases hb : b.contains post.id
        · rw [if_pos hb]; exact ih acc
        · rw [if_neg hb]
          by_cases ha : acc.contains post.id
          · rw [if_pos ha]; exact ih acc
          · rw [if_neg ha]
            exact fun x h => ih (post.id :: acc) (List.mem_cons_of_mem _ h)

/-- Every collected id either came from the accumulator or is the id of a
non-bookmarked scanned post. -/
theorem mem_collectRemoveIds_src {b : List String} {c : Nat} :
    ∀ {l : List Post} {acc : List String} {x : String},
      x ∈ collectRemoveIds b c l acc →
      x ∈ acc ∨ ∃ p ∈ l, p.id = x ∧ b.contains p.id = false := by
  intro l
  induction l with
  | nil => intro acc x hx; exact Or.inl hx
  | cons post rest ih =>
      intro acc x hx
      rw [collectRemoveIds] at hx
      by_cases hstop : c ≤ acc.length
      · rw [if_pos hstop] at hx; exact Or.inl hx
      · rw [if_neg hstop] at hx
        by_cases hb : b.contains post.id
        · rw [if_pos hb] at hx
          rcases ih hx with h | ⟨p, hp, hpid, hpb⟩
          · exact Or.inl h
          · exact Or.inr ⟨p, List.mem_cons_of_mem _ hp, hpid, hpb⟩
        · rw [if_neg hb] at hx
          by_cases ha : acc.contains post.id
          · rw [if_pos ha] at hx
            rcases ih hx with h | ⟨p, hp, hpid, hpb⟩
            · exact Or.inl h
            · exact Or.inr ⟨p, List.mem_cons_of_mem _ hp, hpid, hpb⟩
          · rw [if_neg ha] at hx
            rcases ih hx with h | ⟨p, hp, hpid, hpb⟩
            · rcases List.mem_cons.mp h with rfl | h
              · exact Or.inr ⟨post, List.mem_cons_self _ _, rfl,
                  Bool.eq_false_iff.mpr hb⟩
              · exact Or.inl h
            · exact Or.inr ⟨p, List.mem_cons_of_mem _ hp, hpid, hpb⟩

/-- The collected id set stays duplicate-free. -/
theorem collectRemoveIds_nodup (b : List String) (c : Nat) :
    ∀ (l : List Post) (acc : List String), acc.Nodup →
      (collectRemoveIds b c l acc).Nodup := by
  intro l
  induction l with
  | nil => intro acc h; exact h
  | cons post rest ih =>
      intro acc h
      rw [collectRemoveIds]
      by_cases hstop : c ≤ acc.length
      · rw [if_pos hstop]; exact h
      · rw [if_neg hstop]
        by_cases hb : b.contains post.id
        · rw [if_pos hb]; exact ih acc h
        · rw [if_neg hb]
          by_cases ha : acc.contains post.id
          · rw [if_pos ha]; exact ih acc h
          · rw [if_neg ha]
            refine ih (post.id :: acc) (List.nodup_cons.mpr ⟨?_, h⟩)
            simpa using ha

/-- Size of the collected id set: the scan takes non-bookmarked posts until
the requested count is reached. -/
theorem collectRemoveIds_length (b : List String) (c : Nat) :
    ∀ (l : List Post) (acc : List String),
      acc.length ≤ c →
      (∀ p ∈ l, p.id ∉ acc) →
      ((l.map (·.id)).Nodup) →
      (collectRemoveIds b c l acc).length =
        min c (acc.length +
          (l.filter (fun p => !(b.contains p.id))).length) := by
  intro l
  induction l with
  | nil =>
      intro acc hlen _ _
      simp [collectRemoveIds, Nat.min_eq_right, hlen]
  | cons post rest ih =>
      intro acc hlen hfresh hnodup
      rw [List.map_cons, List.nodup_cons] at hnodup
      obtain ⟨hpid, hnodup⟩ := hnodup
      rw [collectRemoveIds]
      by_cases hstop : c ≤ acc.length
      · rw [if_pos hstop]
        have : acc.length = c := Nat.le_antisymm hlen hstop
        rw [this]
        have : c ≤ c + (List.filter (fun p => !(b.contains p.id))
            (post :: rest)).length := Nat.le_add_right _ _
        omega
      · rw [if_neg hstop]
        by_cases hb : b.contains post.id
        · rw [if_pos hb]
          have hrec := ih acc hlen
            (fun p hp => hfresh p (List.mem_cons_of_mem _ hp)) hnodup
          have hb' : post.id ∈ b := by simpa using hb
          rw [hrec, List.filter_cons]
          simp [hb']
        · rw [if_neg hb]
          by_cases ha : acc.contains post.id
          · exact absurd (by simpa using ha)
              (hfresh post (List.mem_cons_self _ _))
          · rw [if_neg ha]
            have hfresh2 : ∀ p ∈ rest, p.id ∉ post.id :: acc := by
              intro p hp
              rw [List.mem_cons]
              push_neg
              refine ⟨?_, hfresh p (List.mem_cons_of_mem _ hp)⟩
              intro hc
              exact hpid (hc ▸ List.mem_map_of_mem (·.id) hp)
            have hrec := ih (post.id :: acc)
              (by simpa using Nat.lt_of_not_le hstop) hfresh2 hnodup
            have hbf : b.contains post.id = false := by
              simp only [Bool.not_eq_true] at hb
              exact hb
            rw [hrec, List.filter_cons, hbf]
            simp only [Bool.not_false, if_true, List.length_cons]
            omega


/-- The scan takes the earliest non-bookmarked posts of its input: a scanned
post whose id was collected cannot be newer than a non-bookmarked scanned
post whose id was not. -/
theorem collectRemoveIds_oldest {b : List String} {c : Nat} :
    ∀ {l : List Post} {acc : List String} {p q : Post},
      l.Pairwise (fun a a2 => a.created_utc ≤ a2.created_utc) →
      ((l.map (·.id)).Nodup) →
      (∀ r ∈ l, r.id ∉ acc) →
      p ∈ l → b.contains p.id = false →
      p.id ∉ collectRemoveIds b c l acc →
      q ∈ l → q.id ∈ collectRemoveIds b c l acc → q.id ∉ acc →
      q.created_utc ≤ p.created_utc := by
  intro l
  induction l with
  | nil => intro acc p q _ _ _ hp; exact absurd hp (List.not_mem_nil p)
  | cons x rest ih =>
      intro acc p q hsorted hnodup hfreshacc hp hpb hpR hq hqR hqacc
      rw [List.pairwise_cons] at hsorted
      obtain ⟨hxle, hsorted⟩ := hsorted
      rw [List.map_cons, List.nodup_cons] at hnodup
      obtain ⟨hxid, hnodup⟩ := hnodup
      rw [collectRemoveIds] at hpR hqR
      by_cases hstop : c ≤ acc.length
      · rw [if_pos hstop] at hqR
        exact absurd hqR hqacc
      · rw [if_neg hstop] at hpR hqR
        by_cases hb : b.contains x.id
        · rw [if_pos hb] at hpR hqR
          have hpx : p ≠ x := by
            intro h
            rw [h] at hpb
            rw [hpb] at hb
            cases hb
          have hp' : p ∈ rest := (List.mem_cons.mp hp).resolve_left hpx
          have hq' : q ∈ rest := by
            rcases List.mem_cons.mp hq with rfl | hq'
            · exfalso
              rcases mem_collectRemoveIds_src hqR with h | ⟨r, hr, hrid, _⟩
              · exact hqacc h
              · exact hxid (hrid ▸ List.mem_map_of_mem (·.id) hr)
            · exact hq'
          exact ih hsorted hnodup
            (fun r hr => hfreshacc r (List.mem_cons_of_mem _ hr))
            hp' hpb hpR hq' hqR hqacc
        · rw [if_neg hb] at hpR hqR
          by_cases ha : acc.contains x.id
          · exact absurd (by simpa using ha)
              (hfreshacc x (List.mem_cons_self _ _))
          · rw [if_neg ha] at hpR hqR
            have hpx : p ≠ x := by
              intro h
              exact hpR (collectRemoveIds_sub b c rest (x.id :: acc)
                (h ▸ List.mem_cons_self _ _))
            have hp' : p ∈ rest := (List.mem_cons.mp hp).resolve_left hpx
            rcases List.mem_cons.mp hq with rfl | hq'
            · exact hxle p hp'
            · have hfresh2 : ∀ r ∈ rest, r.id ∉ x.id :: acc := by
                intro r hr
                rw [List.mem_cons]
                push_neg
                refine ⟨?_, hfreshacc r (List.mem_cons_of_mem _ hr)⟩
                intro hc
                exact hxid (hc ▸ List.mem_map_of_mem (·.id) hr)
              have hqacc2 : q.id ∉ x.id :: acc := hfresh2 q hq'
              exact ih hsorted hnodup hfresh2 hp' hpb hpR hq' hqR hqacc2

/-- `List.contains` as a decided membership proposition. -/
theorem contains_eq_decide_mem (L : List String) (x : String) :
    L.contains x = decide (x ∈ L) := by simp

/-- Counting posts whose id lies in a duplicate-free id set `R` drawn from a
duplicate-free feed: exactly `R.length` posts match. -/
theorem length_filter_contains :
    ∀ {l : List Post} {R : List String},
      ((l.map (·.id)).Nodup) → R.Nodup →
      (∀ x ∈ R, x ∈ l.map (·.id)) →
      (l.filter (fun p => R.contains p.id)).length = R.length := by
  intro l
  induction l with
  | nil =>
      intro R _ _ hsub
      have : R = [] := by
        rw [List.eq_nil_iff_forall_not_mem]
        intro x hx
        simpa using hsub x hx
      simp [this]
  | cons post rest ih =>
      intro R hnodup hR hsub
      rw [List.map_cons, List.nodup_cons] at hnodup
      obtain ⟨hpid, hnodup⟩ := hnodup
      rw [List.filter_cons]
      by_cases hp : post.id ∈ R
      · have hcon : (R.contains post.id) = true := by simpa using hp
        rw [hcon]
        simp only [if_true, List.length_cons]
        have hsub2 : ∀ x ∈ R.erase post.id, x ∈ rest.map (·.id) := by
          intro x hx
          obtain ⟨hxne, hxR⟩ := hR.mem_erase_iff.mp hx
          rcases List.mem_cons.mp (hsub x hxR) with h | h
          · exact absurd h hxne
          · exact h
        have hfe : rest.filter (fun p => R.contains p.id) =
            rest.filter (fun p => (R.erase post.id).contains p.id) := by
          apply List.filter_congr
          intro r hr
          have hrne : r.id ≠ post.id := by
            intro hc
            exact hpid (hc ▸ List.mem_map_of_mem (·.id) hr)
          have hiff : r.id ∈ R ↔ r.id ∈ R.erase post.id := by
            rw [hR.mem_erase_iff]
            exact ⟨fun h => ⟨hrne, h⟩, fun h => h.2⟩
          rw [contains_eq_decide_mem, contains_eq_decide_mem,
            decide_eq_decide.mpr hiff]
        rw [hfe, ih hnodup (hR.erase _) hsub2,
          List.length_erase_of_mem hp]
        have : 0 < R.length := List.length_pos_of_mem hp
        omega
      · have hcon : (R.contains post.id) = false := by simpa using hp
        rw [hcon, if_neg Bool.false_ne_true]
        refine ih hnodup hR ?_
        intro x hx
        rcases List.mem_cons.mp (hsub x hx) with h | h
        · rw [h] at hx
          exact absurd hx hp
        · exact h


/-- One gate iteration under the window invariant: either the gate passes
with the invariant intact, remaining budget positive, `lastRequestTime`
untouched and a pass instant at least an interval after the last
reservation, or it sleeps past the window reset and retries. -/
theorem rateLimitIteration_spec (st : RateLimitState) (now : Int)
    (hinv : st.requestCount + st.remainingRequests ≤
      CONFIG.REQUESTS_PER_MINUTE) :
    (∃ st1 p, rateLimitIteration st now = .inl (st1, p) ∧
      0 < st1.remainingRequests ∧
      st1.lastRequestTime = st.lastRequestTime ∧
      st1.requestCount + st1.remainingRequests ≤
        CONFIG.REQUESTS_PER_MINUTE ∧
      st.lastRequestTime + CONFIG.REQUEST_INTERVAL ≤ p) ∨
    (∃ now1, rateLimitIteration st now = .inr (st, now1) ∧
      st.resetTime ≤ now1) := by
  unfold rateLimitIteration
  by_cases hreset : st.resetTime ≤ now
  · simp only [if_pos hreset]
    have h50 : (0 : Nat) < CONFIG.REQUESTS_PER_MINUTE := by decide
    simp only [h50, if_pos]
    left
    by_cases hint : CONFIG.REQUEST_INTERVAL ≤ now - st.lastRequestTime
    · simp only [if_pos hint]
      refine ⟨_, _, rfl, h50, rfl, ?_, ?_⟩
      · simp [CONFIG.REQUESTS_PER_MINUTE]
      · omega
    · simp only [if_neg hint]
      refine ⟨_, _, rfl, h50, rfl, ?_, ?_⟩
      · simp [CONFIG.REQUESTS_PER_MINUTE]
      · omega
  · simp only [if_neg hreset]
    by_cases hrem : 0 < st.remainingRequests
    · simp only [if_pos hrem]
      left
      by_cases hint : CONFIG.REQUEST_INTERVAL ≤ now - st.lastRequestTime
      · simp only [if_pos hint]
        exact ⟨_, _, rfl, hrem, rfl, hinv, by omega⟩
      · simp only [if_neg hint]
        exact ⟨_, _, rfl, hrem, rfl, hinv, by omega⟩
    · simp only [if_neg hrem]
      right
      refine ⟨_, rfl, ?_⟩
      have : st.resetTime - now ≤ max 0 (st.resetTime - now) :=
        le_max_right _ _
      omega

/-- Loop unfolding: a passing iteration ends the wait. -/
theorem waitForRateLimitLoop_inl {st st1 : RateLimitState} {now p : Int}
    (fuel : Nat) (h : rateLimitIteration st now = .inl (st1, p)) :
    waitForRateLimitLoop (fuel + 1) st now = some (st1, p) := by
  rw [waitForRateLimitLoop, h]

/-- Loop unfolding: a sleeping iteration re-enters the loop. -/
theorem waitForRateLimitLoop_inr {st st1 : RateLimitState} {now now1 : Int}
    (fuel : Nat) (h : rateLimitIteration st now = .inr (st1, now1)) :
    waitForRateLimitLoop (fuel + 1) st now =
      waitForRateLimitLoop fuel st1 now1 := by
  rw [waitForRateLimitLoop, h]

/-- `waitForRateLimit` always returns within two iterations (after one
sleep-to-reset the window has surely been reset), preserving the window
invariant and spacing the pass a full interval after the last
reservation. -/
theorem waitForRateLimit_spec (st : RateLimitState) (now : Int)
    (hinv : st.requestCount + st.remainingRequests ≤
      CONFIG.REQUESTS_PER_MINUTE) :
    ∃ st1 p, waitForRateLimit st now = some (st1, p) ∧
      0 < st1.remainingRequests ∧
      st1.lastRequestTime = st.lastRequestTime ∧
      st1.requestCount + st1.remainingRequests ≤
        CONFIG.REQUESTS_PER_MINUTE ∧
      st.lastRequestTime + CONFIG.REQUEST_INTERVAL ≤ p := by
  unfold waitForRateLimit
  rw [show (2 : Nat) = 1 + 1 from rfl]
  rcases rateLimitIteration_spec st now hinv with
    ⟨st1, p, heq, h1, h2, h3, h4⟩ | ⟨now1, heq, hge⟩
  · rw [waitForRateLimitLoop_inl 1 heq]
    exact ⟨st1, p, rfl, h1, h2, h3, h4⟩
  · rw [waitForRateLimitLoop_inr 1 heq,
      show (1 : Nat) = 0 + 1 from rfl]
    rcases rateLimitIteration_spec st now1 hinv with
      ⟨st1, p, heq2, h1, h2, h3, h4⟩ | ⟨now2, heq2, _⟩
    · rw [waitForRateLimitLoop_inl 0 heq2]
      exact ⟨st1, p, rfl, h1, h2, h3, h4⟩
    · exfalso
      unfold rateLimitIteration at heq2
      simp only [if_pos hge] at heq2
      have h50 : (0 : Nat) < CONFIG.REQUESTS_PER_MINUTE := by decide
      simp only [h50, if_pos] at heq2
      by_cases hint : CONFIG.REQUEST_INTERVAL ≤ now1 - st.lastRequestTime
      · simp only [if_pos hint] at heq2
        cases heq2
      · simp only [if_neg hint] at heq2
        cases heq2


/-- A back-to-back acquire-and-reserve run: every run completes, the
reservation log is spaced by at least the configured interval, every
intermediate `requestCount` stays within the per-window budget, and the
window invariant is preserved. -/
theorem rateLimiterRun_spec :
    ∀ (durs : List Nat) (st : RateLimitState) (now : Int),
      st.requestCount + st.remainingRequests ≤
        CONFIG.REQUESTS_PER_MINUTE →
      ∃ log final, rateLimiterRun st now durs = some (log, final) ∧
        List.Chain' (fun a b => a.1 + CONFIG.REQUEST_INTERVAL ≤ b.1) log ∧
        (∀ e ∈ log, e.2.requestCount ≤ CONFIG.REQUESTS_PER_MINUTE) ∧
        (∀ e ∈ log.head?,
          st.lastRequestTime + CONFIG.REQUEST_INTERVAL ≤ e.1) ∧
        final.requestCount + final.remainingRequests ≤
          CONFIG.REQUESTS_PER_MINUTE := by
  intro durs
  induction durs with
  | nil =>
      intro st now hinv
      exact ⟨[], st, rfl, List.chain'_nil, by simp, by simp, hinv⟩
  | cons dur durs ih =>
      intro st now hinv
      obtain ⟨st1, p, heq, hpos, hlast, hinv1, hspace⟩ :=
        waitForRateLimit_spec st now hinv
      have hinv2 : (reserveRequest st1 (p + (dur : Int))).requestCount +
          (reserveRequest st1 (p + (dur : Int))).remainingRequests ≤
            CONFIG.REQUESTS_PER_MINUTE := by
        unfold reserveRequest
        dsimp only
        omega
      obtain ⟨log, final, heqrun, hchain, hcount, hhead, hfinal⟩ :=
        ih (reserveRequest st1 (p + (dur : Int))) (p + (dur : Int)) hinv2
      refine ⟨(p + (dur : Int), reserveRequest st1 (p + (dur : Int))) :: log,
        final, ?_, ?_, ?_, ?_, hfinal⟩
      · unfold rateLimiterRun
        rw [heq]
        dsimp only
        rw [heqrun]
      · rw [List.chain'_cons']
        refine ⟨?_, hchain⟩
        intro b hb
        have := hhead b hb
        unfold reserveRequest at this
        dsimp only at this
        exact this
      · intro e he
        rcases List.mem_cons.mp he with rfl | he
        · dsimp only
          unfold reserveRequest
          dsimp only
          omega
        · exact hcount e he
      · intro e he
        simp only [List.head?_cons, Option.mem_def, Option.some.injEq] at he
        subst he
        dsimp only
        have : (0 : Int) ≤ (dur : Int) := Int.ofNat_nonneg dur
        omega

/-! ## Claims -/

/-- C10: both eviction operations modify only the applied post lists of the
`my` and `popular` feeds; the staging areas, the starred list, the
`lastFetch` maps, the job queue, the rate-limit state and every other
state field are unchanged, and in particular a staged post over the age
bound survives the age-based cleanup. -/
theorem claim_C10 (st : AppState) (now storageSize : ℚ) :
    ((cleanupOldPostsByAge now st).my.pending = st.my.pending ∧
     (cleanupOldPostsByAge now st).popular.pending = st.popular.pending ∧
     (cleanupOldPostsByAge now st).my.lastFetch = st.my.lastFetch ∧
     (cleanupOldPostsByAge now st).popular.lastFetch = st.popular.lastFetch ∧
     (cleanupOldPostsByAge now st).popularFiltered = st.popularFiltered ∧
     (cleanupOldPostsByAge now st).starred = st.starred ∧
     (cleanupOldPostsByAge now st).subreddits = st.subreddits ∧
     (cleanupOldPostsByAge now st).blocked = st.blocked ∧
     (cleanupOldPostsByAge now st).blockedUsers = st.blockedUsers ∧
     (cleanupOldPostsByAge now st).current = st.current ∧
     (cleanupOldPostsByAge now st).rateLimitState = st.rateLimitState ∧
     (cleanupOldPostsByAge now st).syncQueue = st.syncQueue ∧
     (cleanupOldPostsByAge now st).isProcessingQueue = st.isProcessingQueue ∧
     (cleanupOldPostsByAge now st).storageQuota = st.storageQuota) ∧
    ((cleanupOldPosts storageSize st).my.pending = st.my.pending ∧
     (cleanupOldPosts storageSize st).popular.pending = st.popular.pending ∧
     (cleanupOldPosts storageSize st).my.lastFetch = st.my.lastFetch ∧
     (cleanupOldPosts storageSize st).popular.lastFetch = st.popular.lastFetch ∧
     (cleanupOldPosts storageSize st).popularFiltered = st.popularFiltered ∧
     (cleanupOldPosts storageSize st).starred = st.starred ∧
     (cleanupOldPosts storageSize st).subreddits = st.subreddits ∧
     (cleanupOldPosts storageSize st).blocked = st.blocked ∧
     (cleanupOldPosts storageSize st).blockedUsers = st.blockedUsers ∧
     (cleanupOldPosts storageSize st).current = st.current ∧
     (cleanupOldPosts storageSize st).rateLimitState = st.rateLimitState ∧
     (cleanupOldPosts storageSize st).syncQueue = st.syncQueue ∧
     (cleanupOldPosts storageSize st).isProcessingQueue = st.isProcessingQueue ∧
     (cleanupOldPosts storageSize st).storageQuota = st.storageQuota) ∧
    (∀ p ∈ st.my.pending.posts,
       maxPostAgeSeconds < now - (p.created_utc : ℚ) →
         p ∈ (cleanupOldPostsByAge now st).my.pending.posts) ∧
    (∀ p ∈ st.popular.pending.posts,
       maxPostAgeSeconds < now - (p.created_utc : ℚ) →
         p ∈ (cleanupOldPostsByAge now st).popular.pending.posts) := by
  refine ⟨⟨rfl, rfl, rfl, rfl, rfl, rfl, rfl, rfl, rfl, rfl, rfl, rfl, rfl, rfl⟩,
    ?_, fun p hp _ => hp, fun p hp _ => hp⟩
  unfold cleanupOldPosts
  split
  · exact ⟨rfl, rfl, rfl, rfl, rfl, rfl, rfl, rfl, rfl, rfl, rfl, rfl, rfl, rfl⟩
  · exact ⟨rfl, rfl, rfl, rfl, rfl, rfl, rfl, rfl, rfl, rfl, rfl, rfl, rfl, rfl⟩

/-- C7: neither eviction path ever removes a starred (pinned) post: a post
whose id is in the starred set survives `cleanupOldPostsByAge` (for any
clock value) and `cleanupOldPosts` (for any occupancy), in both feeds. -/
theorem claim_C7 (st : AppState) (now storageSize : ℚ) (p : Post)
    (hpin : p.id ∈ bookmarkedIds st) :
    (p ∈ st.my.posts → p ∈ (cleanupOldPostsByAge now st).my.posts) ∧
    (p ∈ st.popular.posts → p ∈ (cleanupOldPostsByAge now st).popular.posts) ∧
    (p ∈ st.my.posts → p ∈ (cleanupOldPosts storageSize st).my.posts) ∧
    (p ∈ st.popular.posts → p ∈ (cleanupOldPosts storageSize st).popular.posts) := by
  have hcontains : (bookmarkedIds st).contains p.id = true := by
    simpa using hpin
  have hage : ∀ l : List Post, p ∈ l →
      p ∈ l.filter (fun post =>
        !(decide (maxPostAgeSeconds < now - (post.created_utc : ℚ)) &&
          !((bookmarkedIds st).contains post.id))) := by
    intro l hl
    refine List.mem_filter.mpr ⟨hl, ?_⟩
    simp only [Bool.not_eq_true', Bool.and_eq_false_iff]
    right
    simpa using hpin
  have hremoved : ∀ x ∈ collectRemoveIds (bookmarkedIds st)
      (cleanupRemoveCount st) st.my.posts.reverse [], x ≠ p.id := by
    intro x hx hxp
    rcases mem_collectRemoveIds hx with h | h
    · simp at h
    · rw [hxp, hcontains] at h; cases h
  have hocc : ∀ l : List Post, p ∈ l →
      p ∈ l.filter (fun q =>
        !((collectRemoveIds (bookmarkedIds st) (cleanupRemoveCount st)
            st.my.posts.reverse []).contains q.id)) := by
    intro l hl
    refine List.mem_filter.mpr ⟨hl, ?_⟩
    have : p.id ∉ collectRemoveIds (bookmarkedIds st) (cleanupRemoveCount st)
        st.my.posts.reverse [] := fun hmem => hremoved p.id hmem rfl
    simpa using this
  refine ⟨fun h => hage st.my.posts h, fun h => hage st.popular.posts h, ?_, ?_⟩
  · unfold cleanupOldPosts
    split
    · exact fun h => h
    · exact fun h => hocc st.my.posts h
  · unfold cleanupOldPosts
    split
    · exact fun h => h
    · exact fun h => hocc st.popular.posts h

/-- C3: starting from any queue satisfying the invariant, no sequence of
`queueSyncJob` calls ever produces two non-terminal jobs with the same
`(kind, sourceKey)` pair; a single call returns `none` and adds nothing
exactly when an equivalent non-terminal job exists, and otherwise appends
one new `pending` job with `retries = 0`. -/
theorem claim_C3 (ty : String) (sr : Option String) (nid : String) (now : Int)
    (q : List Job) (reqs : List (String × Option String × String × Int))
    (h : noDuplicateActive q) :
    noDuplicateActive (queueSyncJob ty sr nid now q).2 ∧
    ((queueSyncJob ty sr nid now q).1 = none ↔
      ∃ j ∈ q, isTerminalStatus j.status = false ∧ j.type = ty ∧
        j.subreddit = sr) ∧
    ((queueSyncJob ty sr nid now q).1 = none →
      (queueSyncJob ty sr nid now q).2 = q) ∧
    (∀ jb, (queueSyncJob ty sr nid now q).1 = some jb →
      (queueSyncJob ty sr nid now q).2 = q ++ [jb] ∧
      jb.status = JobStatus.pending ∧ jb.retries = 0) ∧
    noDuplicateActive (enqueueAll reqs q) :=
  ⟨(queueSyncJob_spec ty sr nid now q h).1,
   (queueSyncJob_spec ty sr nid now q h).2.1,
   (queueSyncJob_spec ty sr nid now q h).2.2.1,
   (queueSyncJob_spec ty sr nid now q h).2.2.2,
   enqueueAll_noDuplicateActive reqs q h⟩

/-- Witness for C3 at a concrete queue: enqueueing `fetch_subreddit`/`dogs`
on a queue already holding a pending job for the same pair is refused. -/
theorem claim_C3_witness :
    noDuplicateActive [newJob "fetch_subreddit" (some "dogs") "j1" 0] ∧
    (noDuplicateActive (queueSyncJob "fetch_subreddit" (some "dogs") "j2" 5
        [newJob "fetch_subreddit" (some "dogs") "j1" 0]).2 ∧
     ((queueSyncJob "fetch_subreddit" (some "dogs") "j2" 5
        [newJob "fetch_subreddit" (some "dogs") "j1" 0]).1 = none ↔
       ∃ j ∈ [newJob "fetch_subreddit" (some "dogs") "j1" 0],
         isTerminalStatus j.status = false ∧ j.type = "fetch_subreddit" ∧
           j.subreddit = some "dogs") ∧
     ((queueSyncJob "fetch_subreddit" (some "dogs") "j2" 5
        [newJob "fetch_subreddit" (some "dogs") "j1" 0]).1 = none →
       (queueSyncJob "fetch_subreddit" (some "dogs") "j2" 5
        [newJob "fetch_subreddit" (some "dogs") "j1" 0]).2 =
         [newJob "fetch_subreddit" (some "dogs") "j1" 0]) ∧
     (∀ jb, (queueSyncJob "fetch_subreddit" (some "dogs") "j2" 5
        [newJob "fetch_subreddit" (some "dogs") "j1" 0]).1 = some jb →
       (queueSyncJob "fetch_subreddit" (some "dogs") "j2" 5
        [newJob "fetch_subreddit" (some "dogs") "j1" 0]).2 =
         [newJob "fetch_subreddit" (some "dogs") "j1" 0] ++ [jb] ∧
       jb.status = JobStatus.pending ∧ jb.retries = 0) ∧
     noDuplicateActive (enqueueAll [("fetch_popular", none, "j3", 9)]
        [newJob "fetch_subreddit" (some "dogs") "j1" 0])) :=
  ⟨by unfold noDuplicateActive; exact List.pairwise_singleton _ _,
   claim_C3 "fetch_subreddit" (some "dogs") "j2" 5
     [newJob "fetch_subreddit" (some "dogs") "j1" 0]
     [("fetch_popular", none, "j3", 9)]
     (by unfold noDuplicateActive; exact List.pairwise_singleton _ _)⟩

/-- C1: when the fetched posts all match the source key and ids are stable
(any stored post sharing an id with a fetched post carries the same,
matching subreddit — the Item data-model invariant), a stage call appends
only posts whose id was in neither the applied nor the prior staging
sequence, and repeating the same stage call adds nothing the second
time. -/
theorem claim_C1 (posts : List Post) (feedType : String)
    (subreddit : Option String) (feed : Feed)
    (hmatch : ∀ p ∈ posts, subMatch subreddit p = true)
    (hcoh : ∀ q ∈ feed.posts ++ feed.pending.posts, ∀ p ∈ posts,
      q.id = p.id → subMatch subreddit q = true) :
    (∀ p ∈ (addPostsToPending posts feedType subreddit feed).pending.posts.drop
        feed.pending.posts.length,
      (∀ q ∈ feed.posts, q.id ≠ p.id) ∧
      (∀ q ∈ feed.pending.posts, q.id ≠ p.id)) ∧
    addPostsToPending posts feedType subreddit
        (addPostsToPending posts feedType subreddit feed) =
      addPostsToPending posts feedType subreddit feed := by
  obtain ⟨hposts, hpending⟩ :=
    addPostsToPending_posts_pending posts feedType subreddit feed
  constructor
  · rw [hpending, List.drop_left]
    intro p hp
    obtain ⟨hpin, hpnot⟩ := mem_getNewPostsOnly.mp hp
    constructor
    · intro q hq hqid
      exact hpnot (mem_existingIds.mpr ⟨q, Or.inl hq,
        hcoh q (List.mem_append.mpr (Or.inl hq)) p hpin hqid, hqid⟩)
    · intro q hq hqid
      exact hpnot (mem_existingIds.mpr ⟨q, Or.inr hq,
        hcoh q (List.mem_append.mpr (Or.inr hq)) p hpin hqid, hqid⟩)
  · have hnil : getNewPostsOnly posts subreddit
        (addPostsToPending posts feedType subreddit feed) = [] := by
      rw [List.eq_nil_iff_forall_not_mem]
      intro p hp
      obtain ⟨hpin, hpnot⟩ := mem_getNewPostsOnly.mp hp
      apply hpnot
      by_cases hnew : p ∈ getNewPostsOnly posts subreddit feed
      · refine mem_existingIds.mpr ⟨p, Or.inr ?_, hmatch p hpin, rfl⟩
        rw [hpending]
        exact List.mem_append_right _ hnew
      · have hold : p.id ∈ existingIds subreddit feed := by
          by_contra hcon
          exact hnew (mem_getNewPostsOnly.mpr ⟨hpin, hcon⟩)
        obtain ⟨q, hq, hm, hid⟩ := mem_existingIds.mp hold
        refine mem_existingIds.mpr ⟨q, ?_, hm, hid⟩
        rcases hq with hq | hq
        · exact Or.inl (hposts ▸ hq)
        · refine Or.inr ?_
          rw [hpending]
          exact List.mem_append_left _ hq
    exact addPostsToPending_of_nil feedType hnil

/-- Witness for C1: staging a dogs post onto a feed (whose only id
collision also carries subreddit dogs) twice adds it once. -/
theorem claim_C1_witness :
    (∀ p ∈ [samplePost], subMatch (some "dogs") p = true) ∧
    (∀ q ∈ sampleState.my.posts ++ sampleState.my.pending.posts,
      ∀ p ∈ [samplePost], q.id = p.id → subMatch (some "dogs") q = true) ∧
    ((∀ p ∈ (addPostsToPending [samplePost] "my" (some "dogs")
          sampleState.my).pending.posts.drop
        sampleState.my.pending.posts.length,
      (∀ q ∈ sampleState.my.posts, q.id ≠ p.id) ∧
      (∀ q ∈ sampleState.my.pending.posts, q.id ≠ p.id)) ∧
     addPostsToPending [samplePost] "my" (some "dogs")
        (addPostsToPending [samplePost] "my" (some "dogs") sampleState.my) =
      addPostsToPending [samplePost] "my" (some "dogs") sampleState.my) :=
  ⟨by decide, by decide,
    claim_C1 [samplePost] "my" (some "dogs") sampleState.my (by decide)
      (by decide)⟩

/-- C8 counterexample: a single stage call whose fetched list holds the
same id twice, on a feed knowing neither id, stages that id twice — not
once as the claim states. -/
theorem claim_C8_counterexample :
    ¬ ((addPostsToPending [samplePost, samplePost] "my" none
          emptyFeed).pending.posts.countP
        (fun p => p.id == samplePost.id) = 1) := by decide

/-- C8 amended: duplicates inside one fetched batch are NOT collapsed at
staging time — when none of the fetched ids are already in the feed, the
staging sequence afterwards contains each id exactly as many times as it
occurs in the fetched list (the batch is only checked against the feed,
never against itself; duplicate ids are collapsed later, at apply). -/
theorem claim_C8 (posts : List Post) (feedType : String)
    (subreddit : Option String) (feed : Feed) (x : String)
    (hfresh : ∀ p ∈ posts, (∀ q ∈ feed.posts, q.id ≠ p.id) ∧
      (∀ q ∈ feed.pending.posts, q.id ≠ p.id)) :
    (addPostsToPending posts feedType subreddit feed).pending.posts.countP
        (fun p => p.id == x) =
      feed.pending.posts.countP (fun p => p.id == x) +
        posts.countP (fun p => p.id == x) := by
  have hnew : getNewPostsOnly posts subreddit feed = posts := by
    unfold getNewPostsOnly
    rw [List.filter_eq_self]
    intro p hp
    have : ¬ p.id ∈ existingIds subreddit feed := by
      intro hmem
      obtain ⟨q, hq, _, hid⟩ := mem_existingIds.mp hmem
      rcases hq with hq | hq
      · exact (hfresh p hp).1 q hq hid
      · exact (hfresh p hp).2 q hq hid
    simpa using this
  obtain ⟨_, hpending⟩ :=
    addPostsToPending_posts_pending posts feedType subreddit feed
  rw [hpending, hnew, List.countP_append]

/-- Witness for C8: the duplicated sample batch stages the id twice. -/
theorem claim_C8_witness :
    (∀ p ∈ [samplePost, samplePost],
      (∀ q ∈ emptyFeed.posts, q.id ≠ p.id) ∧
      (∀ q ∈ emptyFeed.pending.posts, q.id ≠ p.id)) ∧
    (addPostsToPending [samplePost, samplePost] "my" none
        emptyFeed).pending.posts.countP (fun p => p.id == samplePost.id) =
      emptyFeed.pending.posts.countP (fun p => p.id == samplePost.id) +
        [samplePost, samplePost].countP (fun p => p.id == samplePost.id) :=
  ⟨by decide,
    claim_C8 [samplePost, samplePost] "my" none emptyFeed samplePost.id
      (by decide)⟩

/-- C6: `cleanupOldPosts` is a no-op whenever measured occupancy is below
the 90% threshold, for every state; otherwise (on a feed with unique ids,
sorted descending) it removes exactly `ceil(20%)` of the `my` feed count
when enough non-pinned posts exist, removes only non-pinned posts, removes
only posts no newer than any surviving non-pinned post (the oldest, by the
tail scan), mirrors the removal by id on the popular feed, and on a
1000-post feed with nothing starred removes exactly 200 posts. -/
theorem claim_C6 (storageSize : ℚ) (st : AppState)
    (hnodup : (st.my.posts.map (·.id)).Nodup)
    (hsorted : st.my.posts.Pairwise
      (fun a b => b.created_utc ≤ a.created_utc)) :
    (getStorageUsagePercent storageSize st < CONFIG.CLEANUP_THRESHOLD →
      cleanupOldPosts storageSize st = st) ∧
    (¬ getStorageUsagePercent storageSize st < CONFIG.CLEANUP_THRESHOLD →
      (cleanupRemoveCount st ≤ (st.my.posts.filter
          (fun p => !((bookmarkedIds st).contains p.id))).length →
        (cleanupOldPosts storageSize st).my.posts.length =
          st.my.posts.length - cleanupRemoveCount st) ∧
      (∀ p ∈ st.my.posts, p ∉ (cleanupOldPosts storageSize st).my.posts →
        ¬ p.id ∈ bookmarkedIds st) ∧
      (∀ p ∈ (cleanupOldPosts storageSize st).my.posts,
        ¬ p.id ∈ bookmarkedIds st →
        ∀ q ∈ st.my.posts, q ∉ (cleanupOldPosts storageSize st).my.posts →
          q.created_utc ≤ p.created_utc) ∧
      (∀ p ∈ st.popular.posts,
        (p ∈ (cleanupOldPosts storageSize st).popular.posts ↔
          ∀ q ∈ st.my.posts, q.id = p.id →
            q ∈ (cleanupOldPosts storageSize st).my.posts)) ∧
      (st.my.posts.length = 1000 → st.starred = [] →
        (cleanupOldPosts storageSize st).my.posts.length = 800)) := by
  constructor
  · intro hthr
    unfold cleanupOldPosts
    rw [if_pos hthr]
  · intro hthr
    have hmy' : (cleanupOldPosts storageSize st).my.posts =
        st.my.posts.filter (fun p =>
          !((collectRemoveIds (bookmarkedIds st) (cleanupRemoveCount st)
            st.my.posts.reverse []).contains p.id)) := by
      unfold cleanupOldPosts
      rw [if_neg hthr]
    have hpop' : (cleanupOldPosts storageSize st).popular.posts =
        st.popular.posts.filter (fun p =>
          !((collectRemoveIds (bookmarkedIds st) (cleanupRemoveCount st)
            st.my.posts.reverse []).contains p.id)) := by
      unfold cleanupOldPosts
      rw [if_neg hthr]
    have hRsub : ∀ x ∈ collectRemoveIds (bookmarkedIds st)
        (cleanupRemoveCount st) st.my.posts.reverse [],
        x ∈ st.my.posts.map (·.id) := by
      intro x hx
      rcases mem_collectRemoveIds_src hx with h | ⟨p, hp, hpid, _⟩
      · simp at h
      · exact hpid ▸ List.mem_map_of_mem (·.id) (List.mem_reverse.mp hp)
    have hRnodup : (collectRemoveIds (bookmarkedIds st)
        (cleanupRemoveCount st) st.my.posts.reverse []).Nodup :=
      collectRemoveIds_nodup _ _ _ [] List.nodup_nil
    have hrevnodup : (st.my.posts.reverse.map (·.id)).Nodup := by
      rw [List.map_reverse]
      exact List.nodup_reverse.mpr hnodup
    have hRlen : (collectRemoveIds (bookmarkedIds st) (cleanupRemoveCount st)
        st.my.posts.reverse []).length =
        min (cleanupRemoveCount st) ((st.my.posts.filter
          (fun p => !((bookmarkedIds st).contains p.id))).length) := by
      have h := collectRemoveIds_length (bookmarkedIds st)
        (cleanupRemoveCount st) st.my.posts.reverse [] (Nat.zero_le _)
        (by simp) hrevnodup
      rw [h, List.filter_reverse, List.length_reverse]
      simp
    have hkeptlen : (st.my.posts.filter (fun p =>
        !((collectRemoveIds (bookmarkedIds st) (cleanupRemoveCount st)
          st.my.posts.reverse []).contains p.id))).length =
        st.my.posts.length - (collectRemoveIds (bookmarkedIds st)
          (cleanupRemoveCount st) st.my.posts.reverse []).length := by
      have hsum := List.length_eq_length_filter_add
        (fun p : Post => (collectRemoveIds (bookmarkedIds st)
          (cleanupRemoveCount st) st.my.posts.reverse []).contains p.id)
        (l := st.my.posts)
      have hflen := length_filter_contains hnodup hRnodup hRsub
      omega
    have hremoved_memR : ∀ p ∈ st.my.posts,
        p ∉ (cleanupOldPosts storageSize st).my.posts →
        p.id ∈ collectRemoveIds (bookmarkedIds st) (cleanupRemoveCount st)
          st.my.posts.reverse [] := by
      intro p hp hpk
      rw [hmy'] at hpk
      by_contra hc
      exact hpk (List.mem_filter.mpr ⟨hp, by simpa using hc⟩)
    refine ⟨?_, ?_, ?_, ?_, ?_⟩
    · intro hEnough
      rw [hmy', hkeptlen, hRlen]
      omega
    · intro p hp hpk
      have hpid := hremoved_memR p hp hpk
      rcases mem_collectRemoveIds_src hpid with h | ⟨r, hr, hrid, hrb⟩
      · simp at h
      · intro hmem
        rw [← hrid] at hmem
        have hcon : (bookmarkedIds st).contains r.id = true := by
          simpa using hmem
        rw [hcon] at hrb
        cases hrb
    · intro p hpk hpnb q hq hqk
      have hpmem : p ∈ st.my.posts := by
        rw [hmy'] at hpk
        exact (List.mem_filter.mp hpk).1
      have hpR : p.id ∉ collectRemoveIds (bookmarkedIds st)
          (cleanupRemoveCount st) st.my.posts.reverse [] := by
        rw [hmy'] at hpk
        have := (List.mem_filter.mp hpk).2
        simpa using this
      have hqR := hremoved_memR q hq hqk
      exact collectRemoveIds_oldest (List.pairwise_reverse.mpr hsorted)
        hrevnodup (by simp) (List.mem_reverse.mpr hpmem)
        (by simpa using hpnb) hpR (List.mem_reverse.mpr hq) hqR (by simp)
    · intro p hp
      rw [hpop', hmy']
      constructor
      · intro hpk q hq hqid
        have hpcon := (List.mem_filter.mp hpk).2
        refine List.mem_filter.mpr ⟨hq, ?_⟩
        rw [hqid]
        exact hpcon
      · intro hall
        refine List.mem_filter.mpr ⟨hp, ?_⟩
        by_contra hc
        have hpidR : p.id ∈ collectRemoveIds (bookmarkedIds st)
            (cleanupRemoveCount st) st.my.posts.reverse [] := by
          simpa using hc
        obtain ⟨q, hq, hqid⟩ := List.mem_map.mp (hRsub p.id hpidR)
        have hqk := hall q hq hqid
        have hqcon := (List.mem_filter.mp hqk).2
        rw [hqid] at hqcon
        have : p.id ∉ collectRemoveIds (bookmarkedIds st)
            (cleanupRemoveCount st) st.my.posts.reverse [] := by
          simpa using hqcon
        exact this hpidR
    · intro hlen1000 hstarred
      have hbk : bookmarkedIds st = [] := by
        rw [bookmarkedIds, hstarred]
        rfl
      have hnp : (st.my.posts.filter (fun p =>
          !((bookmarkedIds st).contains p.id))).length = 1000 := by
        rw [hbk]
        simpa using hlen1000
      have hrc : cleanupRemoveCount st = 200 := by
        rw [cleanupRemoveCount, hlen1000]
        norm_num
        try rfl
      rw [hmy', hkeptlen, hRlen, hrc, hnp, hlen1000]
      omega

/-- Witness for C6 at a concrete sorted two-post state. -/
theorem claim_C6_witness :
    (sampleState.my.posts.map (·.id)).Nodup ∧
    sampleState.my.posts.Pairwise
      (fun a b => b.created_utc ≤ a.created_utc) ∧
    ((getStorageUsagePercent 5000000 sampleState < CONFIG.CLEANUP_THRESHOLD →
       cleanupOldPosts 5000000 sampleState = sampleState) ∧
     (¬ getStorageUsagePercent 5000000 sampleState <
         CONFIG.CLEANUP_THRESHOLD →
       (cleanupRemoveCount sampleState ≤ (sampleState.my.posts.filter
           (fun p => !((bookmarkedIds sampleState).contains p.id))).length →
         (cleanupOldPosts 5000000 sampleState).my.posts.length =
           sampleState.my.posts.length - cleanupRemoveCount sampleState) ∧
       (∀ p ∈ sampleState.my.posts,
         p ∉ (cleanupOldPosts 5000000 sampleState).my.posts →
         ¬ p.id ∈ bookmarkedIds sampleState) ∧
       (∀ p ∈ (cleanupOldPosts 5000000 sampleState).my.posts,
         ¬ p.id ∈ bookmarkedIds sampleState →
         ∀ q ∈ sampleState.my.posts,
           q ∉ (cleanupOldPosts 5000000 sampleState).my.posts →
           q.created_utc ≤ p.created_utc) ∧
       (∀ p ∈ sampleState.popular.posts,
         (p ∈ (cleanupOldPosts 5000000 sampleState).popular.posts ↔
           ∀ q ∈ sampleState.my.posts, q.id = p.id →
             q ∈ (cleanupOldPosts 5000000 sampleState).my.posts)) ∧
       (sampleState.my.posts.length = 1000 → sampleState.starred = [] →
         (cleanupOldPosts 5000000 sampleState).my.posts.length = 800))) :=
  ⟨by decide, by decide,
    claim_C6 5000000 sampleState (by decide) (by decide)⟩

/-- C5: for any back-to-back sequence of acquires with no header
correction, starting from a state respecting the window invariant
(`requestCount + remainingRequests` within budget, as the initial state
does), consecutive reservations are never closer than
`REQUEST_INTERVAL`, and the per-window reservation counter never exceeds
`REQUESTS_PER_MINUTE`. -/
theorem claim_C5 (st : RateLimitState) (now : Int) (durs : List Nat)
    (hinv : st.requestCount + st.remainingRequests ≤
      CONFIG.REQUESTS_PER_MINUTE) :
    ∃ log final, rateLimiterRun st now durs = some (log, final) ∧
      List.Chain' (fun a b => a.1 + CONFIG.REQUEST_INTERVAL ≤ b.1) log ∧
      (∀ e ∈ log, e.2.requestCount ≤ CONFIG.REQUESTS_PER_MINUTE) ∧
      final.requestCount + final.remainingRequests ≤
        CONFIG.REQUESTS_PER_MINUTE := by
  obtain ⟨log, final, h1, h2, h3, _, h5⟩ := rateLimiterRun_spec durs st now hinv
  exact ⟨log, final, h1, h2, h3, h5⟩

/-- Witness for C5: a concrete three-request back-to-back run. -/
theorem claim_C5_witness :
    sampleRateLimitState.requestCount +
        sampleRateLimitState.remainingRequests ≤
      CONFIG.REQUESTS_PER_MINUTE ∧
    (∃ log final,
      rateLimiterRun sampleRateLimitState 0 [100, 0, 350] =
        some (log, final) ∧
      List.Chain' (fun a b => a.1 + CONFIG.REQUEST_INTERVAL ≤ b.1) log ∧
      (∀ e ∈ log, e.2.requestCount ≤ CONFIG.REQUESTS_PER_MINUTE) ∧
      final.requestCount + final.remainingRequests ≤
        CONFIG.REQUESTS_PER_MINUTE) :=
  ⟨by decide, claim_C5 sampleRateLimitState 0 [100, 0, 350] (by decide)⟩

/-- C9 counterexample: a response entry that lacks `id` is NOT dropped by
the fetch-and-normalize step — it survives normalization as an item with
an undefined id, so not every produced item has a defined `id`. -/
theorem claim_C9_counterexample :
    ¬ (∀ p ∈ normalizeChildren [rawNoId], p.id.isSome = true) := by decide

/-- C9 amended: the fetch-and-normalize step maps entries one-to-one — the
output has exactly one item per response child and each output item
carries the raw entry id unchanged (possibly undefined); entries lacking
`id` are neither dropped nor surfaced as an error. -/
theorem claim_C9 (children : List RawPost) :
    (normalizeChildren children).length = children.length ∧
    (normalizeChildren children).map (·.id) = children.map (·.id) := by
  refine ⟨by simp [normalizeChildren], ?_⟩
  induction children with
  | nil => rfl
  | cons r rest ih =>
      simp only [normalizeChildren, List.map_cons] at ih ⊢
      rw [stripPostData_id, ih]

/-- C2 counterexample: `applyPendingUpdates` ends by calling
`cleanupOldPostsByAge`, so applying a feed whose staged post is over the
age bound does NOT leave the applied sequence equal to the
dedup-and-sort of staged-plus-applied: the over-age post is evicted in
the same call. -/
theorem claim_C2_counterexample :
    oldState.my.pending.posts ≠ [] ∧
    (applyPendingUpdates 1700000000 oldState).my.posts ≠
      sortByCreatedDesc (removeDuplicates
        (oldState.my.pending.posts ++ oldState.my.posts)) ∧
    ¬ ((applyPendingUpdates 1700000000 oldState).my.posts.Perm
        (removeDuplicates
          (oldState.my.pending.posts ++ oldState.my.posts))) := by
  have h1 : applyFeedMerges oldState =
      { oldState with my := mergeFeed oldState.my } := by
    unfold applyFeedMerges
    norm_num [oldState, mergeFeed]
  have h2 : (mergeFeed oldState.my).posts = [oldPost] := by
    show sortByCreatedDesc (removeDuplicates
      (oldState.my.pending.posts ++ oldState.my.posts)) = [oldPost]
    simp [oldState, removeDuplicates, removeDuplicatesAux, sortByCreatedDesc]
  have h3 : (applyPendingUpdates 1700000000 oldState).my.posts = [] := by
    unfold applyPendingUpdates
    rw [h1]
    unfold cleanupOldPostsByAge
    simp only [h2]
    norm_num [bookmarkedIds, oldState, oldPost, maxPostAgeSeconds,
      CONFIG.MAX_POST_AGE_DAYS]
  have hsort : sortByCreatedDesc (removeDuplicates
      (oldState.my.pending.posts ++ oldState.my.posts)) = [oldPost] := by
    simp [oldState, removeDuplicates, removeDuplicatesAux, sortByCreatedDesc]
  refine ⟨by decide, ?_, ?_⟩
  · rw [h3, hsort]; decide
  · rw [h3]
    intro hperm
    have := hperm.length_eq
    simp [oldState, removeDuplicates, removeDuplicatesAux] at this

/-- C2 amended: under the freshness frame condition that no involved post is
over-age at the apply instant (the age cleanup that `applyPendingUpdates`
ends with then keeps everything — without it the claim fails, see the
counterexample), a feed with non-empty staging ends up
with an applied sequence that is the staged-before-applied concatenation
with duplicate ids removed keeping the first occurrence, sorted by
`created_utc` descending with ties keeping their original relative order
(stated as: sorted, ids nodup, a permutation of the dedup result, and
every equal-timestamp fibre keeps the dedup order); staging is empty
afterwards, and an apply with empty staging leaves the applied sequence
unchanged. -/
theorem claim_C2 (st : AppState) (now : ℚ)
    (hfresh : ∀ p ∈ st.my.pending.posts ++ st.my.posts ++
        st.popular.pending.posts ++ st.popular.posts,
      now - (p.created_utc : ℚ) ≤ (maxPostAgeSeconds : ℚ)) :
    ((st.my.pending.posts ≠ [] →
      (applyPendingUpdates now st).my.posts.Pairwise
        (fun a b => b.created_utc ≤ a.created_utc) ∧
      ((applyPendingUpdates now st).my.posts.map (·.id)).Nodup ∧
      (applyPendingUpdates now st).my.posts.Perm
        (removeDuplicates (st.my.pending.posts ++ st.my.posts)) ∧
      ∀ t : Int, (applyPendingUpdates now st).my.posts.filter
          (fun p => p.created_utc == t) =
        (removeDuplicates (st.my.pending.posts ++ st.my.posts)).filter
          (fun p => p.created_utc == t)) ∧
     (applyPendingUpdates now st).my.pending.posts = [] ∧
     (st.my.pending.posts = [] →
       (applyPendingUpdates now st).my.posts = st.my.posts)) ∧
    ((st.popular.pending.posts ≠ [] →
      (applyPendingUpdates now st).popular.posts.Pairwise
        (fun a b => b.created_utc ≤ a.created_utc) ∧
      ((applyPendingUpdates now st).popular.posts.map (·.id)).Nodup ∧
      (applyPendingUpdates now st).popular.posts.Perm
        (removeDuplicates (st.popular.pending.posts ++ st.popular.posts)) ∧
      ∀ t : Int, (applyPendingUpdates now st).popular.posts.filter
          (fun p => p.created_utc == t) =
        (removeDuplicates (st.popular.pending.posts ++
          st.popular.posts)).filter (fun p => p.created_utc == t)) ∧
     (applyPendingUpdates now st).popular.pending.posts = [] ∧
     (st.popular.pending.posts = [] →
       (applyPendingUpdates now st).popular.posts = st.popular.posts)) := by
  have hmy := applyFeedMerges_my st
  have hpop := applyFeedMerges_popular st
  have hAmy : (applyPendingUpdates now st).my.posts =
      (applyFeedMerges st).my.posts.filter (fun post =>
        !(decide (maxPostAgeSeconds < now - (post.created_utc : ℚ)) &&
          !((bookmarkedIds (applyFeedMerges st)).contains post.id))) := rfl
  have hAmypend : (applyPendingUpdates now st).my.pending =
      (applyFeedMerges st).my.pending := rfl
  have hApop : (applyPendingUpdates now st).popular.posts =
      (applyFeedMerges st).popular.posts.filter (fun post =>
        !(decide (maxPostAgeSeconds < now - (post.created_utc : ℚ)) &&
          !((bookmarkedIds (applyFeedMerges st)).contains post.id))) := rfl
  have hApoppend : (applyPendingUpdates now st).popular.pending =
      (applyFeedMerges st).popular.pending := rfl
  have hfreshMyMerge : ∀ p ∈ (mergeFeed st.my).posts,
      now - (p.created_utc : ℚ) ≤ (maxPostAgeSeconds : ℚ) := by
    intro p hp
    have hp2 : p ∈ removeDuplicates (st.my.pending.posts ++ st.my.posts) :=
      (sortByCreatedDesc_perm _).mem_iff.mp hp
    have hp3 := mem_removeDuplicates hp2
    apply hfresh
    simp only [List.mem_append] at hp3 ⊢
    tauto
  have hfreshMyPlain : ∀ p ∈ st.my.posts,
      now - (p.created_utc : ℚ) ≤ (maxPostAgeSeconds : ℚ) := by
    intro p hp
    apply hfresh
    simp only [List.mem_append]
    tauto
  have hfreshPopMerge : ∀ p ∈ (mergeFeed st.popular).posts,
      now - (p.created_utc : ℚ) ≤ (maxPostAgeSeconds : ℚ) := by
    intro p hp
    have hp2 : p ∈ removeDuplicates
        (st.popular.pending.posts ++ st.popular.posts) :=
      (sortByCreatedDesc_perm _).mem_iff.mp hp
    have hp3 := mem_removeDuplicates hp2
    apply hfresh
    simp only [List.mem_append] at hp3 ⊢
    tauto
  have hfreshPopPlain : ∀ p ∈ st.popular.posts,
      now - (p.created_utc : ℚ) ≤ (maxPostAgeSeconds : ℚ) := by
    intro p hp
    apply hfresh
    simp only [List.mem_append]
    tauto
  constructor
  · by_cases h1 : st.my.pending.posts = []
    · have hlen : ¬ 0 < st.my.pending.posts.length := by
        rw [h1]; simp
      rw [if_neg hlen] at hmy
      refine ⟨fun hc => absurd h1 hc, ?_, fun _ => ?_⟩
      · rw [hAmypend, hmy, h1]
      · rw [hAmy, hmy, cleanupFilter_eq_self now _ _ hfreshMyPlain]
    · have hlen : 0 < st.my.pending.posts.length := List.length_pos.mpr h1
      rw [if_pos hlen] at hmy
      have hfix : (applyPendingUpdates now st).my.posts =
          (mergeFeed st.my).posts := by
        rw [hAmy, hmy, cleanupFilter_eq_self now _ _ hfreshMyMerge]
      obtain ⟨hs, hn, hperm, hstable, hpend, _⟩ := mergeFeed_spec st.my
      refine ⟨fun _ => ⟨?_, ?_, ?_, ?_⟩, ?_, fun hc => absurd hc h1⟩
      · rw [hfix]; exact hs
      · rw [hfix]; exact hn
      · rw [hfix]; exact hperm
      · intro t; rw [hfix]; exact hstable t
      · rw [hAmypend, hmy, hpend]
  · by_cases h1 : st.popular.pending.posts = []
    · have hlen : ¬ 0 < st.popular.pending.posts.length := by
        rw [h1]; simp
      rw [if_neg hlen] at hpop
      refine ⟨fun hc => absurd h1 hc, ?_, fun _ => ?_⟩
      · rw [hApoppend, hpop, h1]
      · rw [hApop, hpop, cleanupFilter_eq_self now _ _ hfreshPopPlain]
    · have hlen : 0 < st.popular.pending.posts.length := List.length_pos.mpr h1
      rw [if_pos hlen] at hpop
      have hfix : (applyPendingUpdates now st).popular.posts =
          (mergeFeed st.popular).posts := by
        rw [hApop, hpop, cleanupFilter_eq_self now _ _ hfreshPopMerge]
      obtain ⟨hs, hn, hperm, hstable, hpend, _⟩ := mergeFeed_spec st.popular
      refine ⟨fun _ => ⟨?_, ?_, ?_, ?_⟩, ?_, fun hc => absurd hc h1⟩
      · rw [hfix]; exact hs
      · rw [hfix]; exact hn
      · rw [hfix]; exact hperm
      · intro t; rw [hfix]; exact hstable t
      · rw [hApoppend, hpop, hpend]

/-- Witness for C2 at a concrete fresh state. -/
theorem claim_C2_witness :
    (∀ p ∈ sampleState.my.pending.posts ++ sampleState.my.posts ++
        sampleState.popular.pending.posts ++ sampleState.popular.posts,
      1700000600 - (p.created_utc : ℚ) ≤ (maxPostAgeSeconds : ℚ)) ∧
    ((sampleState.my.pending.posts ≠ [] →
      (applyPendingUpdates 1700000600 sampleState).my.posts.Pairwise
        (fun a b => b.created_utc ≤ a.created_utc) ∧
      ((applyPendingUpdates 1700000600 sampleState).my.posts.map
        (·.id)).Nodup ∧
      (applyPendingUpdates 1700000600 sampleState).my.posts.Perm
        (removeDuplicates (sampleState.my.pending.posts ++
          sampleState.my.posts)) ∧
      ∀ t : Int, (applyPendingUpdates 1700000600 sampleState).my.posts.filter
          (fun p => p.created_utc == t) =
        (removeDuplicates (sampleState.my.pending.posts ++
          sampleState.my.posts)).filter (fun p => p.created_utc == t)) ∧
     (applyPendingUpdates 1700000600 sampleState).my.pending.posts = [] ∧
     (sampleState.my.pending.posts = [] →
       (applyPendingUpdates 1700000600 sampleState).my.posts =
         sampleState.my.posts)) ∧
    ((sampleState.popular.pending.posts ≠ [] →
      (applyPendingUpdates 1700000600 sampleState).popular.posts.Pairwise
        (fun a b => b.created_utc ≤ a.created_utc) ∧
      ((applyPendingUpdates 1700000600 sampleState).popular.posts.map
        (·.id)).Nodup ∧
      (applyPendingUpdates 1700000600 sampleState).popular.posts.Perm
        (removeDuplicates (sampleState.popular.pending.posts ++
          sampleState.popular.posts)) ∧
      ∀ t : Int,
        (applyPendingUpdates 1700000600 sampleState).popular.posts.filter
          (fun p => p.created_utc == t) =
        (removeDuplicates (sampleState.popular.pending.posts ++
          sampleState.popular.posts)).filter (fun p => p.created_utc == t)) ∧
     (applyPendingUpdates 1700000600 sampleState).popular.pending.posts = [] ∧
     (sampleState.popular.pending.posts = [] →
       (applyPendingUpdates 1700000600 sampleState).popular.posts =
         sampleState.popular.posts)) :=
  ⟨by
    intro p hp
    fin_cases hp <;>
      norm_num [samplePost, samplePost2, samplePost3, maxPostAgeSeconds,
        CONFIG.MAX_POST_AGE_DAYS],
   claim_C2 sampleState 1700000600 (by
    intro p hp
    fin_cases hp <;>
      norm_num [samplePost, samplePost2, samplePost3, maxPostAgeSeconds,
        CONFIG.MAX_POST_AGE_DAYS])⟩

/-- C4: a `pending` job whose execution fails on every attempt under
`MAX_RETRIES = 3` is retried until `retries` reaches 3 (after 3 loop
iterations it is `failed` with `retries = 3`), the 4th scheduling
iteration marks it `failed_max_retries`, and after the pass the queue is
empty — the terminal job is pruned. -/
theorem claim_C4 (j : Job) (now : Int) (exec : Job → Bool)
    (hstatus : j.status = JobStatus.pending) (hretries : j.retries = 0)
    (hfail : ∀ k, exec k = false) :
    processJobsLoop exec now 3 [j] =
      [{ j with
          status := JobStatus.failed
          retries := 3
          startTime := some now }] ∧
    processJobsLoop exec now 4 [j] =
      [{ j with
          status := JobStatus.failed_max_retries
          retries := 3
          startTime := some now }] ∧
    processJobsLoop exec now (processQueueFuel [j]) [j] =
      [{ j with
          status := JobStatus.failed_max_retries
          retries := 3
          startTime := some now }] ∧
    processSyncQueue exec now [j] = [] := by
  obtain ⟨jid, jty, jsr, jst, jre, jts, jstt⟩ := j
  simp only at hstatus hretries
  subst hstatus hretries
  refine ⟨?_, ?_, ?_, ?_⟩ <;>
    simp [processJobsLoop, updateFirst, stepJob, isSchedulable,
      processSyncQueue, processQueueFuel, CONFIG.MAX_RETRIES, hfail]

/-- Witness for C4: a concrete always-failing job goes through 3 failed
attempts, is marked permanently failed on the 4th pass and is pruned. -/
theorem claim_C4_witness :
    (newJob "fetch_subreddit" (some "dogs") "jw" 0).status =
      JobStatus.pending ∧
    (newJob "fetch_subreddit" (some "dogs") "jw" 0).retries = 0 ∧
    (processJobsLoop (fun _ => false) 77 3
        [newJob "fetch_subreddit" (some "dogs") "jw" 0] =
      [{ newJob "fetch_subreddit" (some "dogs") "jw" 0 with
          status := JobStatus.failed
          retries := 3
          startTime := some 77 }] ∧
     processJobsLoop (fun _ => false) 77 4
        [newJob "fetch_subreddit" (some "dogs") "jw" 0] =
      [{ newJob "fetch_subreddit" (some "dogs") "jw" 0 with
          status := JobStatus.failed_max_retries
          retries := 3
          startTime := some 77 }] ∧
     processJobsLoop (fun _ => false) 77
        (processQueueFuel [newJob "fetch_subreddit" (some "dogs") "jw" 0])
        [newJob "fetch_subreddit" (some "dogs") "jw" 0] =
      [{ newJob "fetch_subreddit" (some "dogs") "jw" 0 with
          status := JobStatus.failed_max_retries
          retries := 3
          startTime := some 77 }] ∧
     processSyncQueue (fun _ => false) 77
        [newJob "fetch_subreddit" (some "dogs") "jw" 0] = []) :=
  ⟨rfl, rfl,
    claim_C4 (newJob "fetch_subreddit" (some "dogs") "jw" 0) 77
      (fun _ => false) rfl rfl (fun _ => rfl)⟩

/-- Witness for C7 at a concrete state: the starred post survives both
eviction paths. -/
theorem claim_C7_witness :
    samplePost.id ∈ bookmarkedIds sampleState ∧
    ((samplePost ∈ sampleState.my.posts →
        samplePost ∈ (cleanupOldPostsByAge 1800000000 sampleState).my.posts) ∧
     (samplePost ∈ sampleState.popular.posts →
        samplePost ∈ (cleanupOldPostsByAge 1800000000 sampleState).popular.posts) ∧
     (samplePost ∈ sampleState.my.posts →
        samplePost ∈ (cleanupOldPosts 5000000 sampleState).my.posts) ∧
     (samplePost ∈ sampleState.popular.posts →
        samplePost ∈ (cleanupOldPosts 5000000 sampleState).popular.posts)) :=
  ⟨by decide, claim_C7 sampleState 1800000000 5000000 samplePost (by decide)⟩

end Enpwa
